import Mathlib

/-!
Verification of the Waffle Maker session-protocol engine.

Shallow embedding of the core protocol code: the SSE stream decoder
(src/api.ts, readStream), the agent tool-calling loop (src/chat.ts,
doSendMessage), the inline thinking-tag stripper (src/chat.ts,
stripInlineThinkingTags), the tool registry (src/tools/index.ts,
executeTool) and the exec tool (src/tools/exec.ts), the PKCE/OAuth
helpers (oauth.ts: generatePkce, startCallbackServer) and the token
lifecycle (src/tokens.ts, getValidTokens).

Strings are modelled as `List Char` (the character stream after UTF-8
decoding; TextDecoder's streaming reassembly of split code points is a
platform guarantee outside the embedded code).  External collaborators
(JSON.parse, fetch, Bun.spawn, node:crypto, timers) are parameters of
the embedded functions; a JavaScript exception crossing a boundary is
modelled as `Except.error`.
-/

set_option maxRecDepth 4000

namespace WaffleSpec

/-- Shorthand: the character list of a string literal. -/
def strL (s : String) : List Char := s.data

/-- Whitespace as used by JavaScript `trim` and regex `\s` (ASCII subset). -/
def jsSpace (c : Char) : Bool :=
  c = ' ' || c = '\t' || c = '\n' || c = '\r' || c = '\x0b' || c = '\x0c'

/-- Strip leading whitespace (left half of `String.prototype.trim`). -/
def trimLeft (s : List Char) : List Char := s.dropWhile jsSpace

/-- Strip trailing whitespace (right half of `String.prototype.trim`). -/
def trimRight (s : List Char) : List Char := (trimLeft s.reverse).reverse

/-- JavaScript `String.prototype.trim`. -/
def trim (s : List Char) : List Char := trimRight (trimLeft s)

/-- Boolean startsWith on character lists (second argument is the needle). -/
def startsWithL : List Char → List Char → Bool
  | _, [] => true
  | [], _ :: _ => false
  | c :: s, d :: pre => c = d && startsWithL s pre

/-- Length of the longest prefix satisfying `p`. -/
def countWhile (p : Char → Bool) : List Char → Nat
  | [] => 0
  | c :: rest => if p c then countWhile p rest + 1 else 0

/-- JavaScript `Array.prototype.join("\n")` on a list of strings. -/
def joinNl : List (List Char) → List Char
  | [] => []
  | [s] => s
  | s :: rest => s ++ '\n' :: joinNl rest

/-- JavaScript `String.prototype.slice(a, b)` for in-range indices. -/
def sliceL (raw : List Char) (a b : Nat) : List Char := (raw.take b).drop a

/-- Prepend `p` onto the first segment of a segment list (helper for
describing how `split("\n")` acts on concatenations). -/
def glue (p : List Char) : List (List Char) → List (List Char)
  | [] => [p]
  | h :: t => (p ++ h) :: t

/-- JavaScript `String.prototype.split("\n")`: the list of newline-separated
segments; always non-empty, and the last segment is the unterminated tail. -/
def splitNl : List Char → List (List Char)
  | [] => [[]]
  | c :: rest => if c = '\n' then [] :: splitNl rest else glue [c] (splitNl rest)

/-- All segments but the last (the `lines` kept after `lines.pop()`). -/
def fullLines : List (List Char) → List (List Char)
  | [] => []
  | [_] => []
  | s :: t => s :: fullLines t

/-- The last segment (the value returned by `lines.pop()`). -/
def lastLine : List (List Char) → List Char
  | [] => []
  | [s] => s
  | _ :: t => lastLine t

theorem splitNl_cons_nl (rest : List Char) : splitNl ('\n' :: rest) = [] :: splitNl rest := by
  simp [splitNl]

theorem splitNl_cons_other (c : Char) (rest : List Char) (h : c ≠ '\n') :
    splitNl (c :: rest) = glue [c] (splitNl rest) := by
  simp [splitNl, h]

theorem splitNl_ne_nil (s : List Char) : splitNl s ≠ [] := by
  cases s with
  | nil => simp [splitNl]
  | cons c rest =>
    simp only [splitNl]
    split
    · simp
    · cases h : splitNl rest with
      | nil => simp [glue]
      | cons a t => simp [glue]

theorem glue_ne_nil (p : List Char) (l : List (List Char)) : glue p l ≠ [] := by
  cases l <;> simp [glue]

theorem glue_glue (a b : List Char) (l : List (List Char)) :
    glue a (glue b l) = glue (a ++ b) l := by
  cases l <;> simp [glue]

theorem glue_nil_of_ne (l : List (List Char)) (h : l ≠ []) : glue [] l = l := by
  cases l with
  | nil => exact absurd rfl h
  | cons a t => simp [glue]

theorem fullLines_cons_of_ne (a : List Char) (l : List (List Char)) (h : l ≠ []) :
    fullLines (a :: l) = a :: fullLines l := by
  cases l with
  | nil => exact absurd rfl h
  | cons b t => rfl

theorem lastLine_cons_of_ne (a : List Char) (l : List (List Char)) (h : l ≠ []) :
    lastLine (a :: l) = lastLine l := by
  cases l with
  | nil => exact absurd rfl h
  | cons b t => rfl

theorem fullLines_append (l1 l2 : List (List Char)) (h : l2 ≠ []) :
    fullLines (l1 ++ l2) = l1 ++ fullLines l2 := by
  induction l1 with
  | nil => rfl
  | cons a t ih =>
    have hne : t ++ l2 ≠ [] := by
      intro hc
      rcases List.append_eq_nil.mp hc with ⟨_, h2⟩
      exact h h2
    rw [List.cons_append, fullLines_cons_of_ne a (t ++ l2) hne, ih, List.cons_append]

theorem lastLine_append (l1 l2 : List (List Char)) (h : l2 ≠ []) :
    lastLine (l1 ++ l2) = lastLine l2 := by
  induction l1 with
  | nil => rfl
  | cons a t ih =>
    have hne : t ++ l2 ≠ [] := by
      intro hc
      rcases List.append_eq_nil.mp hc with ⟨_, h2⟩
      exact h h2
    rw [List.cons_append, lastLine_cons_of_ne a (t ++ l2) hne, ih]

/-- How `split("\n")` decomposes over concatenation. -/
theorem splitNl_append (x y : List Char) :
    splitNl (x ++ y) = fullLines (splitNl x) ++ glue (lastLine (splitNl x)) (splitNl y) := by
  induction x with
  | nil =>
    simp only [List.nil_append, splitNl, fullLines, lastLine]
    rw [glue_nil_of_ne _ (splitNl_ne_nil y)]
  | cons c rest ih =>
    by_cases hc : c = '\n'
    · subst hc
      rw [List.cons_append, splitNl_cons_nl, splitNl_cons_nl, ih,
        fullLines_cons_of_ne _ _ (splitNl_ne_nil rest),
        lastLine_cons_of_ne _ _ (splitNl_ne_nil rest), List.cons_append]
    · rw [List.cons_append, splitNl_cons_other c _ hc, splitNl_cons_other c _ hc, ih]
      cases hs : splitNl rest with
      | nil => exact absurd hs (splitNl_ne_nil rest)
      | cons h0 t0 =>
        cases t0 with
        | nil =>
          cases hy : splitNl y with
          | nil => exact absurd hy (splitNl_ne_nil y)
          | cons hy0 ty0 => simp [glue, fullLines, lastLine]
        | cons h1 t1 => simp [glue, fullLines, lastLine, List.cons_append, List.append_assoc]

/-- The trailing segment of a split never contains a newline. -/
theorem lastLine_splitNl_no_nl (x : List Char) : '\n' ∉ lastLine (splitNl x) := by
  induction x with
  | nil => simp [splitNl, lastLine]
  | cons c rest ih =>
    by_cases hc : c = '\n'
    · subst hc
      rw [splitNl_cons_nl, lastLine_cons_of_ne _ _ (splitNl_ne_nil rest)]
      exact ih
    · rw [splitNl_cons_other c _ hc]
      cases hs : splitNl rest with
      | nil => exact absurd hs (splitNl_ne_nil rest)
      | cons h0 t0 =>
        cases t0 with
        | nil =>
          simp only [glue, lastLine, List.singleton_append]
          rw [hs] at ih
          simp only [lastLine] at ih
          intro hmem
          rcases List.mem_cons.mp hmem with h | h
          · exact hc h.symm
          · exact ih h
        | cons h1 t1 =>
          simp only [glue, List.singleton_append]
          rw [lastLine_cons_of_ne _ _ (by simp)]
          rw [hs] at ih
          rw [lastLine_cons_of_ne _ _ (by simp)] at ih
          exact ih

/-- Splitting a newline-free string yields that single segment. -/
theorem splitNl_no_nl (g : List Char) (h : '\n' ∉ g) : splitNl g = [g] := by
  induction g with
  | nil => rfl
  | cons c rest ih =>
    have hc : c ≠ '\n' := fun hc => h (by simp [hc])
    have hr : '\n' ∉ rest := fun hm => h (List.mem_cons_of_mem _ hm)
    simp only [splitNl, if_neg hc, ih hr, glue, List.singleton_append]

/-! ## SSE stream decoder (src/api.ts, `readStream`)

The decoder consumes read chunks, maintains a line buffer, and for every
complete `data: ` line parses the payload (JSON.parse is external and is a
parameter `ParseFn` producing the `StreamChunk` shape of api.ts lines 22-46)
and walks `response.candidates[].content.parts[]`. -/

/-- JSON value produced by the external JSON.parse for function-call args. -/
inductive JsonVal where
  | null : JsonVal
  | bool (b : Bool) : JsonVal
  | num (n : Int) : JsonVal
  | str (s : List Char) : JsonVal
  | arr (xs : List JsonVal) : JsonVal
  | obj (fields : List (List Char × JsonVal)) : JsonVal

/-- A parsed functionCall part (api.ts lines 30-33). -/
structure FunctionCallV where
  name : List Char
  args : JsonVal

/-- usageMetadata fields read by the decoder (api.ts lines 38-43). -/
structure UsageMeta where
  promptTokenCount : Option Nat
  candidatesTokenCount : Option Nat

/-- One element of `content.parts` (api.ts lines 27-34). -/
structure PartV where
  text : Option (List Char)
  thought : Option Bool
  functionCall : Option FunctionCallV

/-- The `content` object of a candidate. -/
structure ContentV where
  parts : Option (List PartV)

/-- One element of `response.candidates`. -/
structure CandidateV where
  content : Option ContentV

/-- The `response` object of a stream chunk. -/
structure RespV where
  candidates : Option (List CandidateV)
  usageMetadata : Option UsageMeta

/-- The parsed shape of one SSE frame (api.ts `StreamChunk`). -/
structure StreamChunkV where
  response : Option RespV

/-- Events delivered to the stream callbacks, in delivery order. -/
inductive StreamEv where
  | textDelta (s : List Char)
  | thinkingDelta (s : List Char)
  | fnCallEv (c : FunctionCallV)

/-- Decoder state: the line buffer, the last-seen usage counters, the pending
function call, and the events emitted so far. -/
structure DecState where
  buffer : List Char
  inputTokens : Nat
  outputTokens : Nat
  pending : Option FunctionCallV
  events : List StreamEv

/-- The external JSON parser: `none` models a JSON.parse exception. -/
def ParseFn : Type := List Char → Option StreamChunkV

/-- Process one part (api.ts lines 138-157).  `hasThinking` records whether an
onThinking callback was supplied; without one, thought parts go to onText. -/
def procPart (hasThinking : Bool) (st : DecState) (part : PartV) : DecState :=
  match part.functionCall with
  | some fc =>
    { st with pending := some fc, events := st.events ++ [StreamEv.fnCallEv fc] }
  | none =>
    match part.text with
    | none => st
    | some t =>
      if t = [] then st
      else if part.thought.getD false && hasThinking then
        { st with events := st.events ++ [StreamEv.thinkingDelta t] }
      else
        { st with events := st.events ++ [StreamEv.textDelta t] }

/-- Process one candidate: walk `cand.content?.parts ?? []` (api.ts line 138). -/
def procCandidate (hasThinking : Bool) (st : DecState) (cand : CandidateV) : DecState :=
  let parts := match cand.content with
    | some c => c.parts.getD []
    | none => []
  parts.foldl (procPart hasThinking) st

/-- Capture usage counters, last chunk with data wins (api.ts lines 160-167). -/
def procUsage (st : DecState) (resp : RespV) : DecState :=
  match resp.usageMetadata with
  | none => st
  | some u =>
    let st1 := match u.promptTokenCount with
      | some n => { st with inputTokens := n }
      | none => st
    match u.candidatesTokenCount with
    | some n => { st1 with outputTokens := n }
    | none => st1

/-- Process one successfully parsed frame (api.ts lines 133-167). -/
def procFrame (hasThinking : Bool) (st : DecState) (ck : StreamChunkV) : DecState :=
  match ck.response with
  | none => st
  | some resp =>
    procUsage ((resp.candidates.getD []).foldl (procCandidate hasThinking) st) resp

/-- The payload of a data line: `line.slice(6).trim()` (api.ts line 128). -/
def payloadOf (line : List Char) : List Char := trim (line.drop 6)

/-- Process one complete line (api.ts lines 126-170): require the `data: `
marker, drop it, trim the payload, skip empty and `[DONE]` payloads, skip
lines whose payload fails to parse. -/
def procLine (p : ParseFn) (hasThinking : Bool) (st : DecState) (line : List Char) : DecState :=
  if startsWithL line (strL "data: ") then
    if payloadOf line = [] ∨ payloadOf line = strL "[DONE]" then st
    else
      match p (payloadOf line) with
      | none => st
      | some ck => procFrame hasThinking st ck
  else st

/-- Process a batch of complete lines in order. -/
def procLines (p : ParseFn) (hasThinking : Bool) (st : DecState) (ls : List (List Char)) : DecState :=
  ls.foldl (procLine p hasThinking) st

/-- Replace the buffer of a decoder state (`buffer = lines.pop() ?? ""`). -/
def setBuf (st : DecState) (b : List Char) : DecState := { st with buffer := b }

/-- Process one read chunk (api.ts lines 122-171): append to the buffer,
split on newlines, keep the unterminated tail as the new buffer, and process
every completed line. -/
def stepChunk (p : ParseFn) (hasThinking : Bool) (st : DecState) (chunk : List Char) : DecState :=
  setBuf (procLines p hasThinking st (fullLines (splitNl (st.buffer ++ chunk))))
    (lastLine (splitNl (st.buffer ++ chunk)))

/-- Initial decoder state (api.ts lines 113-116). -/
def initDecState : DecState :=
  { buffer := [], inputTokens := 0, outputTokens := 0, pending := none, events := [] }

/-- The whole decoder: fold the chunk handler over the received chunks.  The
final state carries the returned usage and pending function call together
with the full emitted event sequence. -/
def readStream (p : ParseFn) (hasThinking : Bool) (chunks : List (List Char)) : DecState :=
  chunks.foldl (stepChunk p hasThinking) initDecState

theorem procPart_setBuf (hT : Bool) (st : DecState) (b : List Char) (part : PartV) :
    procPart hT (setBuf st b) part = setBuf (procPart hT st part) b := by
  obtain ⟨bf, it, ot, pd, ev⟩ := st
  unfold procPart setBuf
  cases part.functionCall with
  | some fc => rfl
  | none =>
    cases part.text with
    | none => rfl
    | some t =>
      by_cases ht : t = []
      · simp [ht]
      · simp only [if_neg ht]
        by_cases hth : (part.thought.getD false && hT) = true
        · simp [hth]
        · simp [hth]

theorem foldl_setBuf {α : Type} (f : DecState → α → DecState)
    (hf : ∀ st b x, f (setBuf st b) x = setBuf (f st x) b)
    (l : List α) : ∀ (st : DecState) (b : List Char),
    l.foldl f (setBuf st b) = setBuf (l.foldl f st) b := by
  induction l with
  | nil => intro st b; rfl
  | cons x xs ih =>
    intro st b
    rw [List.foldl_cons, List.foldl_cons, hf, ih]

theorem procCandidate_setBuf (hT : Bool) (st : DecState) (b : List Char) (cand : CandidateV) :
    procCandidate hT (setBuf st b) cand = setBuf (procCandidate hT st cand) b := by
  unfold procCandidate
  exact foldl_setBuf _ (fun st b part => procPart_setBuf hT st b part) _ st b

theorem procUsage_setBuf (st : DecState) (b : List Char) (resp : RespV) :
    procUsage (setBuf st b) resp = setBuf (procUsage st resp) b := by
  cases hu : resp.usageMetadata with
  | none => simp [procUsage, hu]
  | some u =>
    cases hp : u.promptTokenCount <;> cases hc : u.candidatesTokenCount <;>
      simp [procUsage, setBuf, hu, hp, hc]

theorem procFrame_setBuf (hT : Bool) (st : DecState) (b : List Char) (ck : StreamChunkV) :
    procFrame hT (setBuf st b) ck = setBuf (procFrame hT st ck) b := by
  cases hr : ck.response with
  | none => simp [procFrame, hr]
  | some resp =>
    have hf : procFrame hT (setBuf st b) ck
        = procUsage (List.foldl (procCandidate hT) (setBuf st b) (resp.candidates.getD [])) resp := by
      simp [procFrame, hr]
    have hg : procFrame hT st ck
        = procUsage (List.foldl (procCandidate hT) st (resp.candidates.getD [])) resp := by
      simp [procFrame, hr]
    rw [hf, hg, foldl_setBuf _ (fun st b cand => procCandidate_setBuf hT st b cand),
      procUsage_setBuf]

theorem procLine_setBuf (p : ParseFn) (hT : Bool) (st : DecState) (b : List Char)
    (line : List Char) :
    procLine p hT (setBuf st b) line = setBuf (procLine p hT st line) b := by
  unfold procLine
  split
  · split
    · rfl
    · cases p (payloadOf line) with
      | none => rfl
      | some ck => exact procFrame_setBuf hT st b ck
  · rfl

theorem procLines_setBuf (p : ParseFn) (hT : Bool) (st : DecState) (b : List Char)
    (ls : List (List Char)) :
    procLines p hT (setBuf st b) ls = setBuf (procLines p hT st ls) b :=
  foldl_setBuf _ (fun st b l => procLine_setBuf p hT st b l) ls st b

theorem setBuf_overwrite (st : DecState) (b1 b2 : List Char) :
    setBuf (setBuf st b1) b2 = setBuf st b2 := rfl

/-- Key composition law: feeding two chunks one after the other equals feeding
their concatenation. -/
theorem stepChunk_append (p : ParseFn) (hT : Bool) (st : DecState) (a b : List Char) :
    stepChunk p hT (stepChunk p hT st a) b = stepChunk p hT st (a ++ b) := by
  have hGnl : '\n' ∉ lastLine (splitNl (st.buffer ++ a)) :=
    lastLine_splitNl_no_nl (st.buffer ++ a)
  have hsplitG : splitNl (lastLine (splitNl (st.buffer ++ a)))
      = [lastLine (splitNl (st.buffer ++ a))] := splitNl_no_nl _ hGnl
  have hGb : splitNl (lastLine (splitNl (st.buffer ++ a)) ++ b)
      = glue (lastLine (splitNl (st.buffer ++ a))) (splitNl b) := by
    rw [splitNl_append, hsplitG]
    rfl
  have hsegs2_ne : splitNl (lastLine (splitNl (st.buffer ++ a)) ++ b) ≠ [] := splitNl_ne_nil _
  have hbig : splitNl (st.buffer ++ (a ++ b))
      = fullLines (splitNl (st.buffer ++ a))
          ++ splitNl (lastLine (splitNl (st.buffer ++ a)) ++ b) := by
    rw [← List.append_assoc, splitNl_append, hGb]
  show setBuf
      (procLines p hT
        (setBuf (procLines p hT st (fullLines (splitNl (st.buffer ++ a))))
          (lastLine (splitNl (st.buffer ++ a))))
        (fullLines (splitNl ((setBuf (procLines p hT st (fullLines (splitNl (st.buffer ++ a))))
          (lastLine (splitNl (st.buffer ++ a)))).buffer ++ b))))
      (lastLine (splitNl ((setBuf (procLines p hT st (fullLines (splitNl (st.buffer ++ a))))
          (lastLine (splitNl (st.buffer ++ a)))).buffer ++ b)))
      = stepChunk p hT st (a ++ b)
  rw [show (setBuf (procLines p hT st (fullLines (splitNl (st.buffer ++ a))))
      (lastLine (splitNl (st.buffer ++ a)))).buffer
      = lastLine (splitNl (st.buffer ++ a)) from rfl]
  rw [procLines_setBuf, setBuf_overwrite]
  unfold stepChunk
  rw [hbig, fullLines_append _ _ hsegs2_ne, lastLine_append _ _ hsegs2_ne]
  unfold procLines
  rw [List.foldl_append]

theorem foldl_stepChunk_flatten (p : ParseFn) (hT : Bool) (cs : List (List Char)) :
    ∀ (st : DecState) (a : List Char),
    cs.foldl (stepChunk p hT) (stepChunk p hT st a) = stepChunk p hT st (a ++ cs.flatten) := by
  induction cs with
  | nil => intro st a; simp
  | cons c cs ih =>
    intro st a
    rw [List.foldl_cons, stepChunk_append, ih, List.flatten_cons, List.append_assoc]

/-- Claim C2 — the SSE stream decoder is invariant under re-chunking: decoding
a stream delivered in arbitrary chunks (including splits mid-line and
mid-frame) produces exactly the same decoder state — the same event sequence,
final usage counters and pending function call — as decoding the whole stream
as one single chunk. -/
theorem readStream_chunking_invariant (p : ParseFn) (hT : Bool) (chunks : List (List Char)) :
    readStream p hT chunks = readStream p hT [chunks.flatten] := by
  cases chunks with
  | nil => rfl
  | cons c cs =>
    show cs.foldl (stepChunk p hT) (stepChunk p hT initDecState c)
        = stepChunk p hT initDecState ((c :: cs).flatten)
    rw [foldl_stepChunk_flatten, List.flatten_cons]

/-! ## Usage counters: last value wins (claim C5) -/

/-- The promptTokenCount carried by a frame, if any. -/
def usagePrompt (ck : StreamChunkV) : Option Nat :=
  (ck.response.bind RespV.usageMetadata).bind UsageMeta.promptTokenCount

/-- The candidatesTokenCount carried by a frame, if any. -/
def usageCand (ck : StreamChunkV) : Option Nat :=
  (ck.response.bind RespV.usageMetadata).bind UsageMeta.candidatesTokenCount

/-- The frame a line contributes: `none` for non-data lines, empty or
`[DONE]` payloads, and payloads the parser rejects. -/
def frameOfLine (p : ParseFn) (line : List Char) : Option StreamChunkV :=
  if startsWithL line (strL "data: ") then
    if payloadOf line = [] ∨ payloadOf line = strL "[DONE]" then none
    else p (payloadOf line)
  else none

theorem procPart_tokens (hT : Bool) (st : DecState) (part : PartV) :
    (procPart hT st part).inputTokens = st.inputTokens ∧
    (procPart hT st part).outputTokens = st.outputTokens := by
  unfold procPart
  cases part.functionCall with
  | some fc => exact ⟨rfl, rfl⟩
  | none =>
    cases part.text with
    | none => exact ⟨rfl, rfl⟩
    | some t =>
      by_cases ht : t = []
      · simp [ht]
      · simp only [if_neg ht]
        by_cases hth : (part.thought.getD false && hT) = true
        · simp [hth]
        · simp [hth]

theorem foldl_tokens {α : Type} (f : DecState → α → DecState)
    (hf : ∀ st x, (f st x).inputTokens = st.inputTokens ∧ (f st x).outputTokens = st.outputTokens)
    (l : List α) : ∀ st : DecState,
    (l.foldl f st).inputTokens = st.inputTokens ∧ (l.foldl f st).outputTokens = st.outputTokens := by
  induction l with
  | nil => intro st; exact ⟨rfl, rfl⟩
  | cons x xs ih =>
    intro st
    rw [List.foldl_cons]
    rcases ih (f st x) with ⟨h1, h2⟩
    rcases hf st x with ⟨h3, h4⟩
    exact ⟨h1.trans h3, h2.trans h4⟩

theorem procCandidate_tokens (hT : Bool) (st : DecState) (cand : CandidateV) :
    (procCandidate hT st cand).inputTokens = st.inputTokens ∧
    (procCandidate hT st cand).outputTokens = st.outputTokens :=
  foldl_tokens _ (fun st part => procPart_tokens hT st part) _ st

theorem procUsage_tokens (st : DecState) (resp : RespV) :
    (procUsage st resp).inputTokens
        = (resp.usageMetadata.bind UsageMeta.promptTokenCount).getD st.inputTokens ∧
    (procUsage st resp).outputTokens
        = (resp.usageMetadata.bind UsageMeta.candidatesTokenCount).getD st.outputTokens := by
  cases hu : resp.usageMetadata with
  | none => simp [procUsage, hu]
  | some u =>
    cases hp : u.promptTokenCount <;> cases hc : u.candidatesTokenCount <;>
      simp [procUsage, hu, hp, hc]

/-- Per-frame usage characterization: a frame carrying a counter overwrites
the running value (even with a numerically smaller one); a frame without
leaves it unchanged. -/
theorem procFrame_tokens (hT : Bool) (st : DecState) (ck : StreamChunkV) :
    (procFrame hT st ck).inputTokens = (usagePrompt ck).getD st.inputTokens ∧
    (procFrame hT st ck).outputTokens = (usageCand ck).getD st.outputTokens := by
  cases hr : ck.response with
  | none => simp [procFrame, usagePrompt, usageCand, hr]
  | some resp =>
    rcases foldl_tokens _ (fun st cand => procCandidate_tokens hT st cand)
      (resp.candidates.getD []) st with ⟨h1, h2⟩
    rcases procUsage_tokens ((resp.candidates.getD []).foldl (procCandidate hT) st) resp
      with ⟨h3, h4⟩
    have hframe : procFrame hT st ck
        = procUsage ((resp.candidates.getD []).foldl (procCandidate hT) st) resp := by
      simp [procFrame, hr]
    rw [hframe]
    constructor
    · rw [h3, h1]
      simp [usagePrompt, hr]
    · rw [h4, h2]
      simp [usageCand, hr]

theorem procLine_tokens (p : ParseFn) (hT : Bool) (st : DecState) (line : List Char) :
    (procLine p hT st line).inputTokens
        = ((frameOfLine p line).bind usagePrompt).getD st.inputTokens ∧
    (procLine p hT st line).outputTokens
        = ((frameOfLine p line).bind usageCand).getD st.outputTokens := by
  unfold procLine frameOfLine
  split
  · split
    · exact ⟨rfl, rfl⟩
    · cases p (payloadOf line) with
      | none => exact ⟨rfl, rfl⟩
      | some ck => simpa using procFrame_tokens hT st ck
  · exact ⟨rfl, rfl⟩

theorem getLastD_cons {α : Type} (a d : α) (l : List α) :
    ((a :: l).getLast?).getD d = (l.getLast?).getD a := by
  induction l generalizing a d with
  | nil => rfl
  | cons b t ih =>
    rw [List.getLast?_cons_cons, ih b d, ih b a]

/-- Claim C5 — across all frames of one SSE stream, the final usage holds the
last value seen per field: a later frame carrying promptTokenCount or
candidatesTokenCount replaces the running value even if numerically smaller,
and frames without usage metadata leave the captured values unchanged. -/
theorem usage_last_value_wins (p : ParseFn) (hT : Bool) (ls : List (List Char)) :
    ∀ st : DecState,
    (procLines p hT st ls).inputTokens
        = ((ls.filterMap (fun l => (frameOfLine p l).bind usagePrompt)).getLast?).getD
            st.inputTokens ∧
    (procLines p hT st ls).outputTokens
        = ((ls.filterMap (fun l => (frameOfLine p l).bind usageCand)).getLast?).getD
            st.outputTokens := by
  induction ls with
  | nil => intro st; exact ⟨rfl, rfl⟩
  | cons l ls ih =>
    intro st
    rcases procLine_tokens p hT st l with ⟨hin, hout⟩
    rcases ih (procLine p hT st l) with ⟨ih1, ih2⟩
    constructor
    · rw [show procLines p hT st (l :: ls) = procLines p hT (procLine p hT st l) ls from rfl,
        ih1, hin]
      cases hfl : (frameOfLine p l).bind usagePrompt with
      | none => simp [List.filterMap_cons, hfl]
      | some v => simp [List.filterMap_cons, hfl, getLastD_cons]
    · rw [show procLines p hT st (l :: ls) = procLines p hT (procLine p hT st l) ls from rfl,
        ih2, hout]
      cases hfl : (frameOfLine p l).bind usageCand with
      | none => simp [List.filterMap_cons, hfl]
      | some v => simp [List.filterMap_cons, hfl, getLastD_cons]

/-- Claim C6 — a `data: ` line whose payload the JSON parser rejects is
skipped: it leaves the decoder state unchanged (no events, no throw), and the
remaining lines of the stream decode exactly as if the malformed line were
absent. -/
theorem malformed_frame_skipped (p : ParseFn) (hT : Bool) (st : DecState)
    (line : List Char) (rest : List (List Char))
    (h1 : startsWithL line (strL "data: ") = true)
    (h2 : p (payloadOf line) = none) :
    procLine p hT st line = st ∧
    procLines p hT st (line :: rest) = procLines p hT st rest := by
  have hline : procLine p hT st line = st := by
    unfold procLine
    rw [if_pos h1]
    split
    · rfl
    · rw [h2]
  refine ⟨hline, ?_⟩
  show procLines p hT (procLine p hT st line) rest = procLines p hT st rest
  rw [hline]

/-- Witness for C6: the concrete malformed frame `data: {not json` (with a
parser rejecting it) is skipped and a subsequent line still processes. -/
theorem malformed_frame_skipped_witness :
    procLine (fun _ => none) true initDecState (strL "data: \x7bnot json") = initDecState ∧
    procLines (fun _ => none) true initDecState
        [strL "data: \x7bnot json", strL "data: x"]
      = procLines (fun _ => none) true initDecState [strL "data: x"] :=
  malformed_frame_skipped (fun _ => none) true initDecState
    (strL "data: \x7bnot json") [strL "data: x"] (by decide) rfl

/-! ## Inline thinking-tag stripper (src/chat.ts, lines 140-233)

The two regexes QUICK_TAG_RE and THINKING_TAG_RE and the code-region
regexes of findCodeRegions are hand-compiled into deterministic matchers
(each regex here is deterministic: greedy repetition over disjoint
character classes needs no backtracking, and the name alternation
`think(ing)?|thought|antthinking` with a trailing word boundary is
equivalent to trying thinking, think, thought, antthinking in order). -/

/-- Regex `\w` (ASCII word character), used for the `\b` boundary. -/
def isWordChar (c : Char) : Bool :=
  ('a' ≤ c && c ≤ 'z') || ('A' ≤ c && c ≤ 'Z') || ('0' ≤ c && c ≤ '9') || c = '_'

/-- ASCII lower-casing, for the `i` regex flag. -/
def lcChar (c : Char) : Char :=
  if 'A' ≤ c && c ≤ 'Z' then Char.ofNat (c.toNat + 32) else c

/-- The tag-name alternation of the thinking regexes, in match-priority
order (greedy `think(ing)?` prefers `thinking`). -/
def tagNames : List (List Char) :=
  [strL "thinking", strL "think", strL "thought", strL "antthinking"]

/-- Case-insensitive startsWith (needle `pre` is lower case). -/
def startsWithCI : List Char → List Char → Bool
  | _, [] => true
  | [], _ :: _ => false
  | c :: s, d :: pre => lcChar c = d && startsWithCI s pre

/-- Word boundary `\b` after `n` consumed characters of `s`. -/
def boundaryOk (s : List Char) (n : Nat) : Bool :=
  match s.drop n with
  | [] => true
  | c :: _ => !isWordChar c

/-- Match the tag-name alternation followed by `\b` at the head of `s`,
returning the matched length. -/
def matchTagName (s : List Char) : Option Nat :=
  (tagNames.find? (fun nm => startsWithCI s nm && boundaryOk s nm.length)).map List.length

/-- One full-tag match of THINKING_TAG_RE
`<\s*(\/?)\s*(?:think(?:ing)?|thought|antthinking)\b[^<>]*>` at the head of
`s`: returns (total length, whether group 1 matched `/`). -/
def matchTagAt (s : List Char) : Option (Nat × Bool) :=
  match s with
  | '<' :: s1 =>
    match countWhile jsSpace s1 with
    | w1 =>
      match s1.drop w1 with
      | '/' :: s3 =>
        matchTagRest s3 (1 + w1 + 1) true
      | s2 =>
        matchTagRest s2 (1 + w1) false
  | _ => none
where
  /-- Continue after the optional slash: `\s*` then name then `[^<>]*>`. -/
  matchTagRest (s3 : List Char) (soFar : Nat) (isClose : Bool) : Option (Nat × Bool) :=
    match countWhile jsSpace s3 with
    | w2 =>
      match matchTagName (s3.drop w2) with
      | none => none
      | some nameLen =>
        match countWhile (fun c => !(decide (c = '<') || decide (c = '>'))) ((s3.drop w2).drop nameLen) with
        | attrLen =>
          match ((s3.drop w2).drop nameLen).drop attrLen with
          | '>' :: _ => some (soFar + w2 + nameLen + attrLen + 1, isClose)
          | _ => none

/-- One recorded match of the global tag regex: start index, length, and
whether it is a closing tag. -/
structure TagMatch where
  idx : Nat
  len : Nat
  isClose : Bool

/-- The `matchAll` scan of THINKING_TAG_RE: try each position left to right,
resuming after the end of every match (fuel = remaining length). -/
def scanTagsGo : Nat → List Char → Nat → List TagMatch
  | 0, _, _ => []
  | fuel + 1, s, pos =>
    match s with
    | [] => []
    | _ :: rest =>
      match matchTagAt s with
      | some (n, cl) => ⟨pos, n, cl⟩ :: scanTagsGo fuel (s.drop n) (pos + n)
      | none => scanTagsGo fuel rest (pos + 1)

/-- All matches of THINKING_TAG_RE over `raw`, in document order. -/
def scanTags (raw : List Char) : List TagMatch := scanTagsGo raw.length raw 0

/-- One match attempt of QUICK_TAG_RE
`<\s*\/?(?:think(?:ing)?|thought|antthinking)\b` at the head of `s`. -/
def quickMatchAt (s : List Char) : Bool :=
  match s with
  | '<' :: s1 =>
    match s1.drop (countWhile jsSpace s1) with
    | '/' :: s3 => (matchTagName s3).isSome
    | s2 => (matchTagName s2).isSome
  | _ => false

/-- The quick gate `QUICK_TAG_RE.test(raw)` (chat.ts line 140). -/
def quickTagTest (raw : List Char) : Bool := raw.tails.any quickMatchAt

/-- A protected code region `[start, stop)` (chat.ts lines 144-147; the
source field `end` is a Lean keyword, rendered here as `stop`). -/
structure CodeRegion where
  start : Nat
  stop : Nat

/-- The backtick character (code point 96). -/
def backtick : Char := Char.ofNat 96

/-- A fence opener: three backticks or three tildes (regex group 2). -/
def isFence (s : List Char) : Option (List Char) :=
  if startsWithL s (List.replicate 3 backtick) then some (List.replicate 3 backtick)
  else if startsWithL s (strL "~~~") then some (strL "~~~")
  else none

/-- The lazy body scan of the fenced regex: find the earliest position where
`\n` + the same fence + (`\n` or end of input) closes the block, or fall back
to end of input; returns the absolute end of the whole match. -/
def fencedClose (f : List Char) : List Char → Nat → Nat
  | [], pos => pos
  | '\n' :: rest, pos =>
    if startsWithL rest f then
      match rest.drop 3 with
      | '\n' :: _ => pos + 1 + 3 + 1
      | [] => pos + 1 + 3
      | _ => fencedClose f rest (pos + 1)
    else fencedClose f rest (pos + 1)
  | _ :: rest, pos => fencedClose f rest (pos + 1)

/-- Try to match the fenced-block regex with the `(^|\n)` prefix already
consumed: `s` starts at the fence candidate (absolute index `pos`).  Returns
the region (start after the prefix, end of the match), matching chat.ts
line 153 and the start/end arithmetic of lines 155-157. -/
def fencedAt (s : List Char) (pos : Nat) : Option (Nat × Nat) :=
  match isFence s with
  | none => none
  | some f =>
    match countWhile (fun c => !decide (c = '\n')) (s.drop 3) with
    | restLen =>
      match s.drop (3 + restLen) with
      | '\n' :: body => some (pos, fencedClose f body (pos + 3 + restLen + 1))
      | _ => none

/-- Scan for fenced blocks at every `\n`-preceded position, resuming after
each match end (the `g`-flag `matchAll` loop). -/
def scanFencedGo : Nat → List Char → Nat → List CodeRegion
  | 0, _, _ => []
  | fuel + 1, s, pos =>
    match s with
    | [] => []
    | '\n' :: s1 =>
      match fencedAt s1 (pos + 1) with
      | some (st, en) => ⟨st, en⟩ :: scanFencedGo fuel (s.drop (en - pos)) en
      | none => scanFencedGo fuel s1 (pos + 1)
    | _ :: s1 => scanFencedGo fuel s1 (pos + 1)

/-- All fenced-block regions of `raw` (the `^` alternative only applies at
index 0; later matches need a preceding `\n`). -/
def scanFenced (raw : List Char) : List CodeRegion :=
  match fencedAt raw 0 with
  | some (st, en) => ⟨st, en⟩ :: scanFencedGo raw.length (raw.drop en) en
  | none => scanFencedGo raw.length raw 0

/-- Match the inline-code regex `` `+[^`]+`+ `` at the head of `s`. -/
def inlineAt (s : List Char) : Option Nat :=
  match s with
  | c :: _ =>
    if c = backtick then
      match countWhile (fun d => decide (d = backtick)) s with
      | r1 =>
        match countWhile (fun d => !decide (d = backtick)) (s.drop r1) with
        | r2 =>
          if r2 = 0 then none
          else
            match countWhile (fun d => decide (d = backtick)) ((s.drop r1).drop r2) with
            | r3 => if r3 = 0 then none else some (r1 + r2 + r3)
    else none
  | _ => none

/-- The `matchAll` scan for inline code spans. -/
def scanInlineGo : Nat → List Char → Nat → List CodeRegion
  | 0, _, _ => []
  | fuel + 1, s, pos =>
    match s with
    | [] => []
    | _ :: s1 =>
      match inlineAt s with
      | some n => ⟨pos, pos + n⟩ :: scanInlineGo fuel (s.drop n) (pos + n)
      | none => scanInlineGo fuel s1 (pos + 1)

/-- findCodeRegions (chat.ts lines 149-173): fenced blocks, then inline
spans not already inside a fenced block.  The source's final sort by start
is omitted: regions are only ever consulted through the existential scan
`isInsideCode`, which is order-independent. -/
def findCodeRegions (raw : List Char) : List CodeRegion :=
  scanFenced raw
    ++ (scanInlineGo raw.length raw 0).filter
        (fun r => !((scanFenced raw).any (fun fr => fr.start ≤ r.start && r.stop ≤ fr.stop)))

/-- isInsideCode (chat.ts lines 175-177). -/
def isInsideCode (pos : Nat) (regions : List CodeRegion) : Bool :=
  regions.any (fun r => r.start ≤ pos && pos < r.stop)

/-- The scan state of stripInlineThinkingTags (chat.ts lines 194-198). -/
structure StripState where
  result : List Char
  lastIndex : Nat
  inThinking : Bool
  thinkingParts : List (List Char)
  currentThinkingStart : Nat

/-- One iteration of the match loop (chat.ts lines 200-220). -/
def stripStep (raw : List Char) (regions : List CodeRegion) (st : StripState)
    (m : TagMatch) : StripState :=
  if isInsideCode m.idx regions then st
  else if !st.inThinking then
    if !m.isClose then
      { st with result := st.result ++ sliceL raw st.lastIndex m.idx,
                inThinking := true,
                currentThinkingStart := m.idx + m.len,
                lastIndex := m.idx + m.len }
    else
      { st with result := st.result ++ sliceL raw st.lastIndex m.idx,
                lastIndex := m.idx + m.len }
  else if m.isClose then
    { st with thinkingParts :=
                st.thinkingParts ++ [trim (sliceL raw st.currentThinkingStart m.idx)],
              inThinking := false,
              lastIndex := m.idx + m.len }
  else
    { st with lastIndex := m.idx + m.len }

/-- Run the whole match loop over the tag matches of `raw`. -/
def stripRun (raw : List Char) : StripState :=
  (scanTags raw).foldl (stripStep raw (findCodeRegions raw)) ⟨[], 0, false, [], 0⟩

/-- The result of stripInlineThinkingTags. -/
structure StripResult where
  thinking : List Char
  content : List Char

/-- stripInlineThinkingTags (chat.ts lines 183-233): fast path when no quick
tag candidate occurs; otherwise run the scan, treat an unclosed tag's tail as
thinking, and return the trimmed thinking/content pair. -/
def stripInlineThinkingTags (raw : List Char) : StripResult :=
  if raw = [] || !quickTagTest raw then ⟨[], raw⟩
  else if (stripRun raw).inThinking then
    ⟨trim (joinNl ((stripRun raw).thinkingParts
        ++ [trim (raw.drop (stripRun raw).currentThinkingStart)])),
     trim (stripRun raw).result⟩
  else
    ⟨trim (joinNl (stripRun raw).thinkingParts),
     trim ((stripRun raw).result ++ raw.drop (stripRun raw).lastIndex)⟩

/-! ## Agent tool-calling loop (src/chat.ts, `doSendMessage`, lines 442-599)

One `sendMessage` round-trip is modelled by its observable outcome: a
function call, accumulated plain text, or a thrown transport error.  The
model oracle `send` maps the history sent on the wire to that outcome; the
tool executor returns a ToolResult (tools never throw across the loop
boundary here — their own boundary is claim C4's subject).  The while loop
`while (loopCount < MAX_TOOL_LOOPS)` with `loopCount++` at the top is
expressed structurally with fuel `MAX_TOOL_LOOPS - loopCount`. -/

/-- A conversation-history entry (the ChatMessage roles used by chat.ts). -/
inductive ChatMsgV where
  | user (text : List Char)
  | assistant (text : List Char)
  | fnCallMsg (c : FunctionCallV)
  | fnRespMsg (name : List Char) (output : List Char) (isErr : Bool)

/-- A tool result as consumed by the loop: output text and error flag. -/
structure ToolResultV where
  output : List Char
  error : Bool

/-- Outcome of one sendMessage call. -/
inductive ModelResp where
  | fnCall (c : FunctionCallV)
  | text (raw : List Char)
  | err (msg : List Char)

/-- chat.ts line 454. -/
def MAX_TOOL_LOOPS : Nat := 15

/-- Loop result: final history and the final value of loopCount. -/
structure TurnResult where
  history : List ChatMsgV
  loopCount : Nat

/-- The loop body (chat.ts lines 456-590).  On a function call: push the
functionCall entry, execute the tool, push the functionResponse entry, and
continue.  On text: push the stripped assistant text and stop.  On a thrown
transport error: pop the just-added user message when this was the first
iteration, and stop. -/
def loopGo (send : List ChatMsgV → ModelResp) (tool : FunctionCallV → ToolResultV) :
    Nat → List ChatMsgV → Nat → TurnResult
  | 0, hist, loopCount => ⟨hist, loopCount⟩
  | fuel + 1, hist, loopCount =>
    match send hist with
    | ModelResp.fnCall c =>
      loopGo send tool fuel
        (hist ++ [ChatMsgV.fnCallMsg c,
          ChatMsgV.fnRespMsg c.name (tool c).output (tool c).error])
        (loopCount + 1)
    | ModelResp.text raw =>
      ⟨hist ++ [ChatMsgV.assistant (stripInlineThinkingTags raw).content], loopCount + 1⟩
    | ModelResp.err _ =>
      ⟨if loopCount + 1 = 1 then hist.dropLast else hist, loopCount + 1⟩

/-- Outcome of a whole user turn, including whether the budget warning of
chat.ts lines 592-595 is shown. -/
structure SendOutcome where
  history : List ChatMsgV
  loopCount : Nat
  warned : Bool

/-- doSendMessage: push the user message, run the loop from loopCount 0, and
show the tool-loop-limit warning iff `loopCount >= MAX_TOOL_LOOPS` held when
the loop ended. -/
def doSendMessage (send : List ChatMsgV → ModelResp) (tool : FunctionCallV → ToolResultV)
    (hist : List ChatMsgV) (text : List Char) : SendOutcome :=
  match loopGo send tool MAX_TOOL_LOOPS (hist ++ [ChatMsgV.user text]) 0 with
  | ⟨h, lc⟩ => ⟨h, lc, decide (MAX_TOOL_LOOPS ≤ lc)⟩

/-- No orphaned tool call: every functionCall entry is immediately followed
by a functionResponse entry for the same tool name. -/
def noOrphan : List ChatMsgV → Bool
  | [] => true
  | ChatMsgV.fnCallMsg c :: ChatMsgV.fnRespMsg n _ _ :: rest =>
    decide (n = c.name) && noOrphan rest
  | ChatMsgV.fnCallMsg _ :: _ => false
  | _ :: rest => noOrphan rest

/-! ## Tool registry and exec tool (src/tools/index.ts, src/tools/exec.ts)

`executeTool` dispatches on the name-keyed map built from
`[execTool, webSearchTool, webFetchTool]`; the three implementations are
effectful and appear as parameters.  `Except.error` models a JavaScript
exception crossing the boundary. -/

/-- A tool boundary outcome: a returned result or a thrown exception. -/
def ToolOutcome : Type := Except (List Char) ToolResultV

/-- The registered tool names, in registration order (tools/index.ts line 12). -/
def toolNames : List (List Char) := [strL "exec", strL "web_search", strL "web_fetch"]

/-- executeTool (tools/index.ts lines 28-37): look the name up in the tool
map; unknown names produce the error-flagged result, registered names
dispatch to the corresponding implementation. -/
def executeTool (execI wsI wfI : JsonVal → ToolOutcome)
    (name : List Char) (args : JsonVal) : ToolOutcome :=
  if name = strL "exec" then execI args
  else if name = strL "web_search" then wsI args
  else if name = strL "web_fetch" then wfI args
  else Except.ok ⟨strL "Unknown tool: " ++ name, true⟩

/-- The arguments of the exec tool (exec.ts lines 81-85); absent fields are
`none`.  JS numbers are restricted to integral values here, making the
`Math.floor` in clampWithDefault the identity. -/
structure ExecArgsV where
  command : Option (List Char)
  workdir : Option (List Char)
  timeout : Option Int

/-- clampWithDefault (exec.ts lines 29-38) on integral values. -/
def clampWithDefault (value : Option Int) (fallback lo hi : Int) : Int :=
  max lo (min hi (value.getD fallback))

/-- truncateMiddle (exec.ts lines 23-27).  The registered execTool uses
maxOutput = 200000, for which `max / 2 - 20` is the plain subtraction. -/
def truncateMiddle (text : List Char) (maxOut : Nat) : List Char :=
  if text.length ≤ maxOut then text
  else
    text.take (maxOut / 2 - 20)
      ++ strL "\n\n... (" ++ strL (toString (text.length - maxOut))
      ++ strL " chars truncated) ...\n\n"
      ++ text.drop (text.length - (maxOut / 2 - 20))

/-- The observable outcome of the external `Bun.spawn` run: captured stdout
and stderr, the exit code (`none` for `null`), and whether the timeout timer
fired and killed the process. -/
structure SpawnOutcome where
  stdout : List Char
  stderr : List Char
  exitCode : Option Int
  killed : Bool

/-- The details record attached to an exec result (exec.ts lines 16-21). -/
inductive ExecStatus where
  | completed
  | failed
deriving DecidableEq

/-- An exec tool result: the aggregated text plus details. -/
structure ExecToolResultV where
  text : List Char
  status : ExecStatus
  exitCode : Option Int
  killed : Option Bool
deriving DecidableEq

/-- The validated command: `params.command?.trim()` with the falsy check of
exec.ts line 87 (`undefined` or blank command fails validation). -/
def trimmedCommand : Option (List Char) → Option (List Char)
  | none => none
  | some c => if trim c = [] then none else some (trim c)

/-- DEFAULT_TIMEOUT_SEC and MAX_TIMEOUT_SEC (exec.ts lines 12-13). -/
def DEFAULT_TIMEOUT_SEC : Int := 30
def MAX_TIMEOUT_SEC : Int := 300

/-- DEFAULT_MAX_OUTPUT (exec.ts line 14). -/
def DEFAULT_MAX_OUTPUT : Nat := 200000

/-- The exec tool's execute (exec.ts lines 76-177), with the spawn outcome as
a parameter (`Except.error` for a `Bun.spawn` throw, caught at line 162).
The empty-command guard at line 88 throws — it sits before the try block, so
the resulting `Except.error` escapes the tool boundary. -/
def execExecute (spawn : Except (List Char) SpawnOutcome) (args : ExecArgsV) :
    Except (List Char) ExecToolResultV :=
  match trimmedCommand args.command with
  | none => Except.error (strL "Provide a command to start.")
  | some _ =>
    match spawn with
    | Except.error e =>
      Except.ok ⟨strL "Error executing command: " ++ e, ExecStatus.failed, none, none⟩
    | Except.ok o =>
      Except.ok (execAggregate o (clampWithDefault args.timeout DEFAULT_TIMEOUT_SEC 1 MAX_TIMEOUT_SEC))
where
  /-- Output aggregation of exec.ts lines 138-161. -/
  execAggregate (o : SpawnOutcome) (timeoutSec : Int) : ExecToolResultV :=
    ⟨(joinNlNonEmpty
        ((if trim o.stdout = [] then [] else [truncateMiddle (trim o.stdout) DEFAULT_MAX_OUTPUT])
          ++ (if trim o.stderr = [] then []
              else [strL "STDERR:\n" ++ truncateMiddle (trim o.stderr) DEFAULT_MAX_OUTPUT])
          ++ (if o.killed then
                [strL "(killed: timeout after " ++ strL (toString timeoutSec) ++ strL "s)"]
              else [])))
      ++ (if o.exitCode.getD (-1) ≠ 0 then
            strL "\n\n(Command exited with code " ++ strL (toString (o.exitCode.getD (-1))) ++ strL ")"
          else []),
     if o.killed then ExecStatus.failed else ExecStatus.completed,
     some (o.exitCode.getD (-1)),
     some o.killed⟩
  /-- The fallback `parts.join("\n") || "(no output)"` (exec.ts line 151). -/
  joinNlNonEmpty (parts : List (List Char)) : List Char :=
    if joinNl parts = [] then strL "(no output)" else joinNl parts

/-! ## The web_search tool (src/tools/web-search.ts, `webSearchTool`)

The execute body validates the query, picks Serper when SERPER_API_KEY is
truthy and DuckDuckGo otherwise, and wraps the whole network path in a
try/catch that converts any throw into an error-flagged result.  The fetch
exchange and the `res.json()` parse are external parameters; `Except.error`
models a throw inside the try block. -/

/-- JavaScript string truthiness on optional strings: undefined and the
empty string are falsy. -/
def truthy : Option (List Char) → Option (List Char)
  | none => none
  | some s => if s = [] then none else some s

/-- JavaScript `a || b` on optional strings. -/
def jsOr (a b : Option (List Char)) : Option (List Char) :=
  match truthy a with
  | some s => some s
  | none => truthy b

/-- The observable HTTP exchange of a search request: `ok`, `status`,
`statusText`, and the body text (for the Serper error detail this already
folds in `res.text().catch(() => "")`). -/
structure HttpRespV where
  ok : Bool
  status : Nat
  statusText : List Char
  bodyText : List Char

/-- One organic Serper result (web-search.ts SerperResult). -/
structure SerperResultV where
  title : Option (List Char)
  link : Option (List Char)
  snippet : Option (List Char)
  position : Option Int

/-- The Serper answer box. -/
structure AnswerBoxV where
  title : Option (List Char)
  answer : Option (List Char)
  snippet : Option (List Char)

/-- The Serper knowledge graph. -/
structure KnowledgeGraphV where
  title : Option (List Char)
  description : Option (List Char)

/-- The parsed Serper response body. -/
structure SerperResponseV where
  organic : Option (List SerperResultV)
  answerBox : Option AnswerBoxV
  knowledgeGraph : Option KnowledgeGraphV

/-- A DuckDuckGo related topic (field names follow the wire format). -/
structure DdgTopicV where
  Text : Option (List Char)
  FirstURL : Option (List Char)

/-- The parsed DuckDuckGo instant-answer response body. -/
structure DdgResponseV where
  AbstractText : Option (List Char)
  AbstractURL : Option (List Char)
  Heading : Option (List Char)
  RelatedTopics : Option (List DdgTopicV)

/-- DEFAULT_COUNT (web-search.ts). -/
def DEFAULT_COUNT : Int := 5

/-- The readable Serper summary (web-search.ts lines 830-855): header line,
answer box, knowledge graph, then the organic results, joined by newlines. -/
def serperSummary (query : List Char) (data : SerperResponseV) : List Char :=
  joinNl
    ([strL "Web search results for: \"" ++ query ++ strL "\"\n"]
      ++ (match jsOr (data.answerBox.bind AnswerBoxV.answer)
            (data.answerBox.bind AnswerBoxV.snippet) with
          | some v => [strL "**Answer:** " ++ v ++ strL "\n"]
          | none => [])
      ++ (match truthy (data.knowledgeGraph.bind KnowledgeGraphV.title) with
          | some kgTitle =>
            [strL "**" ++ kgTitle ++ strL ":** "
              ++ ((jsOr (data.knowledgeGraph.bind KnowledgeGraphV.description)
                    (some [])).getD [])
              ++ strL "\n"]
          | none => [])
      ++ ((data.organic.getD []).map (fun r =>
            [(match r.position with
              | some p => strL (toString p)
              | none => strL "-") ++ strL ". **" ++ r.title.getD (strL "Untitled") ++ strL "**",
             strL "   " ++ r.link.getD [],
             strL "   " ++ r.snippet.getD [] ++ strL "\n"])).flatten)

/-- searchSerper (web-search.ts lines 806-855): a thrown fetch or body parse
propagates (to the caller's catch); a non-ok status returns an error-flagged
result; success returns the summary. -/
def searchSerper (fetchRes : Except (List Char) HttpRespV)
    (jsonOf : List Char → Except (List Char) SerperResponseV)
    (query : List Char) (_count : Int) : Except (List Char) ToolResultV :=
  match fetchRes with
  | Except.error e => Except.error e
  | Except.ok res =>
    if !res.ok then
      Except.ok ⟨strL "Serper API error (" ++ strL (toString res.status) ++ strL "): "
        ++ (jsOr (some res.bodyText) (some res.statusText)).getD [], true⟩
    else
      match jsonOf res.bodyText with
      | Except.error e => Except.error e
      | Except.ok data => Except.ok ⟨serperSummary query data, false⟩

/-- The DuckDuckGo summary parts (web-search.ts lines 876-903): header,
heading, abstract with source, then up to DEFAULT_COUNT related topics; a
lone header gets the no-instant-answer note. -/
def ddgParts (query : List Char) (data : DdgResponseV) : List (List Char) :=
  ([strL "Web search results for: \"" ++ query ++ strL "\"\n"]
    ++ (match truthy data.Heading with
        | some h => [strL "**" ++ h ++ strL "**"]
        | none => [])
    ++ (match truthy data.AbstractText with
        | some a =>
          [a] ++ (match truthy data.AbstractURL with
            | some u => [strL "Source: " ++ u ++ strL "\n"]
            | none => [])
        | none => [])
    ++ ((data.RelatedTopics.getD []).take 5).flatMap (fun tp =>
        match truthy tp.Text with
        | some tx =>
          [strL "- " ++ tx] ++ (match truthy tp.FirstURL with
            | some u => [strL "  " ++ u]
            | none => [])
        | none => []))

/-- searchDdg (web-search.ts lines 857-905). -/
def searchDdg (fetchRes : Except (List Char) HttpRespV)
    (jsonOf : List Char → Except (List Char) DdgResponseV)
    (query : List Char) : Except (List Char) ToolResultV :=
  match fetchRes with
  | Except.error e => Except.error e
  | Except.ok res =>
    if !res.ok then
      Except.ok ⟨strL "DuckDuckGo API error (" ++ strL (toString res.status) ++ strL "): "
        ++ res.statusText, true⟩
    else
      match jsonOf res.bodyText with
      | Except.error e => Except.error e
      | Except.ok data =>
        Except.ok
          ⟨joinNl (if (ddgParts query data).length ≤ 1 then
              ddgParts query data
                ++ [strL "(No instant answer available. Try a more specific query, or use web_fetch on a search engine URL.)"]
            else ddgParts query data), false⟩

/-- The arguments of web_search; absent fields are `none` and the count is
restricted to integral values (the source floors it). -/
structure WebSearchArgsV where
  query : Option (List Char)
  count : Option Int

/-- The count clamp of webSearchTool.execute (web-search.ts lines 934-937). -/
def webSearchCount (args : WebSearchArgsV) : Int :=
  match args.count with
  | some v => max 1 (min 10 v)
  | none => DEFAULT_COUNT

/-- The try-block body of webSearchTool.execute (lines 940-944): Serper when
the trimmed key is truthy, DuckDuckGo otherwise. -/
def webSearchAttempt (serperKey : Option (List Char))
    (serperFetch : Except (List Char) HttpRespV)
    (serperJson : List Char → Except (List Char) SerperResponseV)
    (ddgFetch : Except (List Char) HttpRespV)
    (ddgJson : List Char → Except (List Char) DdgResponseV)
    (query : List Char) (count : Int) : Except (List Char) ToolResultV :=
  match truthy (serperKey.map trim) with
  | some _ => searchSerper serperFetch serperJson query count
  | none => searchDdg ddgFetch ddgJson query

/-- webSearchTool.execute (web-search.ts lines 928-954): empty queries get
an early error-flagged result; every throw inside the try block is caught
and returned as a `Web search error:` result. -/
def webSearchExecute (serperKey : Option (List Char))
    (serperFetch : Except (List Char) HttpRespV)
    (serperJson : List Char → Except (List Char) SerperResponseV)
    (ddgFetch : Except (List Char) HttpRespV)
    (ddgJson : List Char → Except (List Char) DdgResponseV)
    (args : WebSearchArgsV) : Except (List Char) ToolResultV :=
  if trim (args.query.getD []) = [] then
    Except.ok ⟨strL "Error: empty search query.", true⟩
  else
    match webSearchAttempt serperKey serperFetch serperJson ddgFetch ddgJson
        (trim (args.query.getD [])) (webSearchCount args) with
    | Except.error e => Except.ok ⟨strL "Web search error: " ++ e, true⟩
    | Except.ok r => Except.ok r

/-! ## The web_fetch tool (`webFetchTool`)

The execute body validates the URL, performs one fetch (external), strips
HTML to readable text for HTML content types, truncates, and wraps all
network work in a try/catch returning an error-flagged result. -/

/-- Global regex replacement: scan left to right; on a match of `matchAt`
(a positive length at the head of the suffix) emit `repl` and resume after
the match, otherwise emit the character; fuel is the input length, which
suffices because every step consumes at least one character. -/
def replaceAll (matchAt : List Char → Option Nat) (repl : List Char) :
    Nat → List Char → List Char
  | 0, s => s
  | fuel + 1, s =>
    match s with
    | [] => []
    | c :: rest =>
      match matchAt s with
      | some n => repl ++ replaceAll matchAt repl fuel (s.drop n)
      | none => c :: replaceAll matchAt repl fuel rest

/-- Find the earliest case-insensitive occurrence of `close`, returning the
absolute end position of the lazy block match. -/
def findCloseCI (close : List Char) : List Char → Nat → Option Nat
  | [], _ => none
  | s@(_ :: rest), k =>
    if startsWithCI s close then some (k + close.length)
    else findCloseCI close rest (k + 1)

/-- One match of a lazy block regex (`<script[\s\S]*?<\/script>` and the
style twin, `gi` flags): the opener at the head, then the earliest closer. -/
def lazyBlockAt (opener closer : List Char) (s : List Char) : Option Nat :=
  if startsWithCI s opener then findCloseCI closer (s.drop opener.length) opener.length
  else none

/-- Index of the first closing angle bracket. -/
def findGt : List Char → Option Nat
  | [] => none
  | c :: rest => if c = '>' then some 0 else (findGt rest).map (· + 1)

/-- The block-element names of the web-fetch regex, with `h[1-6]` expanded. -/
def blockNames : List (List Char) :=
  [strL "p", strL "div", strL "br", strL "h1", strL "h2", strL "h3", strL "h4",
   strL "h5", strL "h6", strL "li", strL "tr", strL "td", strL "th",
   strL "blockquote", strL "pre", strL "hr"]

/-- One match of `<\/?(p|div|br|h[1-6]|li|tr|td|th|blockquote|pre|hr)[^>]*>`:
after the optional slash one of the names must follow (its characters are
never a closing bracket, so the match always ends at the first subsequent
closing bracket regardless of which alternative matched). -/
def blockTagAt (s : List Char) : Option Nat :=
  match s with
  | '<' :: '/' :: body =>
    if blockNames.any (fun nm => startsWithCI body nm) then
      (findGt body).map (fun g => 2 + g + 1)
    else none
  | '<' :: body =>
    if blockNames.any (fun nm => startsWithCI body nm) then
      (findGt body).map (fun g => 1 + g + 1)
    else none
  | _ => none

/-- One match of the tag stripper `<[^>]+>`. -/
def anyTagAt (s : List Char) : Option Nat :=
  match s with
  | '<' :: rest =>
    match countWhile (fun c => !decide (c = '>')) rest with
    | 0 => none
    | r + 1 =>
      match rest.drop (r + 1) with
      | '>' :: _ => some (1 + (r + 1) + 1)
      | _ => none
  | _ => none

/-- One match of a literal global pattern (the entity replacements). -/
def litAt (pat : List Char) (s : List Char) : Option Nat :=
  if startsWithL s pat then some pat.length else none

/-- One match of `[ \t]+`. -/
def spaceTabAt (s : List Char) : Option Nat :=
  match countWhile (fun c => decide (c = ' ') || decide (c = '\t')) s with
  | 0 => none
  | r + 1 => some (r + 1)

/-- One match of `\n{3,}` (greedy, so the whole newline run). -/
def nl3At (s : List Char) : Option Nat :=
  match countWhile (fun c => decide (c = '\n')) s with
  | r + 3 => some (r + 3)
  | _ => none

/-- htmlToText (web-fetch lines 26-51): remove script and style blocks,
replace block elements with newlines, strip remaining tags, decode the six
common entities, collapse whitespace, and trim. -/
def htmlToText (html : List Char) : List Char :=
  let s1 := replaceAll (lazyBlockAt (strL "<script") (strL "</script>")) [] html.length html
  let s2 := replaceAll (lazyBlockAt (strL "<style") (strL "</style>")) [] s1.length s1
  let s3 := replaceAll blockTagAt ['\n'] s2.length s2
  let s4 := replaceAll anyTagAt [] s3.length s3
  let s5 := replaceAll (litAt (strL "&amp;")) (strL "&") s4.length s4
  let s6 := replaceAll (litAt (strL "&lt;")) (strL "<") s5.length s5
  let s7 := replaceAll (litAt (strL "&gt;")) (strL ">") s6.length s6
  let s8 := replaceAll (litAt (strL "&quot;")) (strL "\"") s7.length s7
  let s9 := replaceAll (litAt (strL "&#039;")) (strL "\x27") s8.length s8
  let s10 := replaceAll (litAt (strL "&nbsp;")) (strL " ") s9.length s9
  let s11 := replaceAll spaceTabAt (strL " ") s10.length s10
  let s12 := replaceAll nl3At (strL "\n\n") s11.length s11
  trim s12

/-- DEFAULT_MAX_LENGTH (web-fetch line 22). -/
def DEFAULT_MAX_LENGTH : Int := 10000

/-- JavaScript `String.prototype.includes`. -/
def containsSub (s pat : List Char) : Bool := s.tails.any (fun t => startsWithL t pat)

/-- The observable outcome of the fetch inside webFetchTool.execute: status
line data, the content-type header (`none` for absent), the body text, and
the elapsed wall-clock milliseconds. -/
structure FetchRespV where
  ok : Bool
  status : Nat
  statusText : List Char
  contentType : Option (List Char)
  bodyText : List Char
  tookMs : Nat

/-- The arguments of web_fetch; the length bound is restricted to integral
values (the source floors it). -/
structure WebFetchArgsV where
  url : Option (List Char)
  max_length : Option Int

/-- The extracted, possibly truncated content (web-fetch lines 83-123):
HTML content types go through htmlToText, everything else is trimmed; the
truncation marker quotes the pre-truncation length. -/
def webFetchContent (res : FetchRespV) (args : WebFetchArgsV) : List Char :=
  let maxLength := match args.max_length with
    | some v => Int.toNat (max 100 (min 100000 v))
    | none => Int.toNat DEFAULT_MAX_LENGTH
  let content :=
    if containsSub (res.contentType.getD []) (strL "text/html")
        || containsSub (res.contentType.getD []) (strL "xhtml") then
      htmlToText res.bodyText
    else trim res.bodyText
  if maxLength < content.length then
    content.take maxLength ++ strL "\n\n... (truncated, "
      ++ strL (toString content.length) ++ strL " total chars)"
  else content

/-- webFetchTool.execute (web-fetch lines 77-134): empty URLs get an early
error-flagged result, a thrown fetch is caught into a `Fetch error` result,
a non-ok status returns an error-flagged result, and success reports the
url, timing, content type and content. -/
def webFetchExecute (fetchRes : Except (List Char) FetchRespV) (args : WebFetchArgsV) :
    Except (List Char) ToolResultV :=
  if trim (args.url.getD []) = [] then
    Except.ok ⟨strL "Error: empty URL.", true⟩
  else
    match fetchRes with
    | Except.error e =>
      Except.ok ⟨strL "Fetch error (" ++ trim (args.url.getD []) ++ strL "): " ++ e, true⟩
    | Except.ok res =>
      if !res.ok then
        Except.ok ⟨strL "HTTP " ++ strL (toString res.status) ++ strL ": " ++ res.statusText
          ++ strL " (" ++ trim (args.url.getD []) ++ strL ")", true⟩
      else
        Except.ok ⟨strL "Fetched " ++ trim (args.url.getD []) ++ strL " ("
          ++ strL (toString res.tookMs) ++ strL "ms, "
          ++ (res.contentType.getD []).takeWhile (fun c => !decide (c = ';'))
          ++ strL "):\n\n" ++ webFetchContent res args, false⟩

/-! ## PKCE generation (oauth.ts, `generatePkce`) and base64url -/

/-- Lower-case hex digit for a value below 16. -/
def hexDigit (n : Nat) : Char :=
  if n < 10 then Char.ofNat (48 + n) else Char.ofNat (87 + n)

/-- Node `Buffer.toString("hex")`: two lower-case hex digits per byte. -/
def bytesToHex (bs : List Nat) : List Char :=
  (bs.map (fun b => [hexDigit (b / 16 % 16), hexDigit (b % 16)])).flatten

/-- The base64url alphabet (RFC 4648 §5). -/
def b64Alphabet : List Char :=
  strL "ABCDEFGHIJKLMNOPQRSTUVWXYZabcdefghijklmnopqrstuvwxyz0123456789-_"

/-- The base64url digit for a 6-bit value. -/
def b64urlChar (n : Nat) : Char := b64Alphabet.getD n 'A'

/-- Node `digest("base64url")`: base64url encoding without padding. -/
def base64urlEncode : List Nat → List Char
  | b0 :: b1 :: b2 :: rest =>
    [b64urlChar ((b0 % 256) / 4),
     b64urlChar ((b0 % 256) % 4 * 16 + (b1 % 256) / 16),
     b64urlChar ((b1 % 256) % 16 * 4 + (b2 % 256) / 64),
     b64urlChar ((b2 % 256) % 64)] ++ base64urlEncode rest
  | [b0, b1] =>
    [b64urlChar ((b0 % 256) / 4),
     b64urlChar ((b0 % 256) % 4 * 16 + (b1 % 256) / 16),
     b64urlChar ((b1 % 256) % 16 * 4)]
  | [b0] =>
    [b64urlChar ((b0 % 256) / 4), b64urlChar ((b0 % 256) % 4 * 16)]
  | [] => []

/-- A PKCE verifier/challenge pair. -/
structure PkceParamsV where
  verifier : List Char
  challenge : List Char

/-- generatePkce (oauth.ts lines 35-39): the verifier is the hex encoding of
32 random bytes; the challenge is the base64url digest (no padding) of the
SHA-256 hash of the verifier's bytes.  `randomBytes` and the SHA-256
primitive are platform parameters. -/
def generatePkce (sha256 : List Nat → List Nat) (randomBytes32 : List Nat) : PkceParamsV :=
  ⟨bytesToHex randomBytes32,
   base64urlEncode (sha256 ((bytesToHex randomBytes32).map Char.toNat))⟩

/-! ## OAuth callback listener (oauth.ts, `startCallbackServer`, lines 81-137)

Event-level model of the single-threaded listener: each event (an incoming
HTTP request, the timeout timer firing, the caller's `close()`) runs its
handler to completion, with the `setImmediate(() => server.close())` of
line 125 folded into the request handler.  `releases` counts actual socket
releases (transitions of `listening` from true to false); `closeCalls`
counts invocations of `server.close()`. -/

/-- Listener state. -/
structure CbState where
  settled : Bool
  resolvedUrl : Option (List Char)
  listening : Bool
  closeCalls : Nat
  releases : Nat
deriving DecidableEq

/-- Events the listener reacts to. -/
inductive CbEvent where
  | request (url : Option (List Char))
  | timeoutFire
  | callerClose

/-- The registered callback path (oauth.ts line 115). -/
def cbPath : List Char := strL "/oauth-callback"

/-- The pathname of a request url (everything before the query/fragment). -/
def pathOf (u : List Char) : List Char :=
  u.takeWhile (fun c => !(decide (c = '?') || decide (c = '#')))

/-- One event step of the listener (oauth.ts lines 102-126 plus the exposed
`close`).  A request with no url is answered 400, a request to another path
404, both without state change; a request to the callback path resolves the
wait (first settle wins) and schedules `server.close()`; the timeout rejects
the wait but does not touch the server; `callerClose` is the exported
`close()`. -/
def cbStep (st : CbState) (e : CbEvent) : CbState :=
  match e with
  | CbEvent.request u =>
    if !st.listening then st
    else
      match u with
      | none => st
      | some u =>
        if pathOf u ≠ cbPath then st
        else
          { settled := true,
            resolvedUrl := if st.settled then st.resolvedUrl else some u,
            listening := false,
            closeCalls := st.closeCalls + 1,
            releases := st.releases + (if st.listening then 1 else 0) }
  | CbEvent.timeoutFire =>
    if st.settled then st else { st with settled := true, resolvedUrl := none }
  | CbEvent.callerClose =>
    { st with listening := false,
              closeCalls := st.closeCalls + 1,
              releases := st.releases + (if st.listening then 1 else 0) }

/-- The listener right after `server.listen` succeeded. -/
def cbInit : CbState := ⟨false, none, true, 0, 0⟩

/-- Run the listener over an event trace. -/
def runCallback (evs : List CbEvent) : CbState := evs.foldl cbStep cbInit

/-! ## Token lifecycle (src/tokens.ts, `getValidTokens`, lines 42-68) -/

/-- The persisted token file shape (src/types.ts TokenData). -/
structure TokenDataV where
  access : List Char
  refresh : List Char
  expires : Int
  email : Option (List Char)
  projectId : List Char
deriving DecidableEq

/-- The result of refreshAccessToken (oauth.ts lines 192-223): a new access
token and expiry only; the refresh token is not rotated. -/
structure RefreshResV where
  access : List Char
  expires : Int

/-- The observable outcome of getValidTokens: the returned value, the token
file content afterwards, and whether a refresh call / file write happened. -/
structure TokenEnv where
  result : Option TokenDataV
  file : Option TokenDataV
  refreshCalled : Bool
  wrote : Bool
deriving DecidableEq

/-- getValidTokens: `stored` is the parsed token file (`none` for missing or
corrupt), `now` is `Date.now()`, `refreshFn` the external refresh endpoint
(`Except.error` models a thrown TokenRefreshError). -/
def getValidTokens (stored : Option TokenDataV) (now : Int)
    (refreshFn : List Char → Except (List Char) RefreshResV) : TokenEnv :=
  match stored with
  | none => ⟨none, stored, false, false⟩
  | some t =>
    if now < t.expires then ⟨some t, stored, false, false⟩
    else
      match refreshFn t.refresh with
      | Except.ok r =>
        ⟨some { t with access := r.access, expires := r.expires },
         some { t with access := r.access, expires := r.expires }, true, true⟩
      | Except.error _ => ⟨none, stored, true, false⟩

/-! ## Agent-loop theorems (claims C1 and C3) -/

theorem noOrphan_single_user (t : List Char) : noOrphan [ChatMsgV.user t] = true := rfl

theorem noOrphan_single_assistant (t : List Char) :
    noOrphan [ChatMsgV.assistant t] = true := rfl

theorem noOrphan_pair (c : FunctionCallV) (o : List Char) (e : Bool) :
    noOrphan [ChatMsgV.fnCallMsg c, ChatMsgV.fnRespMsg c.name o e] = true := by
  show (decide (c.name = c.name) && noOrphan []) = true
  rw [show noOrphan ([] : List ChatMsgV) = true from rfl]
  simp

theorem noOrphan_skip (m : ChatMsgV) (rest : List ChatMsgV)
    (hm : ∀ c : FunctionCallV, m ≠ ChatMsgV.fnCallMsg c) :
    noOrphan (m :: rest) = noOrphan rest := by
  cases m with
  | user s => rfl
  | assistant s => rfl
  | fnCallMsg c => exact absurd rfl (hm c)
  | fnRespMsg n o e => rfl

theorem noOrphan_append (xs ys : List ChatMsgV) :
    noOrphan xs = true → noOrphan (xs ++ ys) = noOrphan ys := by
  induction xs using noOrphan.induct with
  | case1 => intro _; simp
  | case2 c n o e rest ih =>
    intro h
    have hpair : noOrphan (ChatMsgV.fnCallMsg c :: ChatMsgV.fnRespMsg n o e :: rest)
        = (decide (n = c.name) && noOrphan rest) := rfl
    rw [hpair, Bool.and_eq_true] at h
    rcases h with ⟨hd, hr⟩
    show noOrphan (ChatMsgV.fnCallMsg c :: ChatMsgV.fnRespMsg n o e :: (rest ++ ys))
        = noOrphan ys
    rw [show noOrphan (ChatMsgV.fnCallMsg c :: ChatMsgV.fnRespMsg n o e :: (rest ++ ys))
        = (decide (n = c.name) && noOrphan (rest ++ ys)) from rfl, hd, Bool.true_and]
    exact ih hr
  | case3 c tail hne =>
    intro h
    exfalso
    cases tail with
    | nil => exact Bool.false_ne_true h
    | cons m rest =>
      cases m with
      | fnRespMsg n o e => exact hne n o e rest rfl
      | user s => exact Bool.false_ne_true h
      | assistant s => exact Bool.false_ne_true h
      | fnCallMsg c2 => exact Bool.false_ne_true h
  | case4 head rest hpair hnc ih =>
    intro h
    have hm : ∀ c : FunctionCallV, head ≠ ChatMsgV.fnCallMsg c := fun c he => hnc c he
    rw [noOrphan_skip head rest hm] at h
    rw [List.cons_append, noOrphan_skip head (rest ++ ys) hm]
    exact ih h

theorem loopGo_fnCall_step (send : List ChatMsgV → ModelResp) (tool : FunctionCallV → ToolResultV)
    (fuel : Nat) (hist : List ChatMsgV) (lc : Nat) (c : FunctionCallV)
    (hs : send hist = ModelResp.fnCall c) :
    loopGo send tool (fuel + 1) hist lc
      = loopGo send tool fuel
          (hist ++ [ChatMsgV.fnCallMsg c,
            ChatMsgV.fnRespMsg c.name (tool c).output (tool c).error]) (lc + 1) := by
  simp only [loopGo, hs]

theorem loopGo_text_step (send : List ChatMsgV → ModelResp) (tool : FunctionCallV → ToolResultV)
    (fuel : Nat) (hist : List ChatMsgV) (lc : Nat) (raw : List Char)
    (hs : send hist = ModelResp.text raw) :
    loopGo send tool (fuel + 1) hist lc
      = ⟨hist ++ [ChatMsgV.assistant (stripInlineThinkingTags raw).content], lc + 1⟩ := by
  simp only [loopGo, hs]

theorem loopGo_err_step (send : List ChatMsgV → ModelResp) (tool : FunctionCallV → ToolResultV)
    (fuel : Nat) (hist : List ChatMsgV) (lc : Nat) (m : List Char)
    (hs : send hist = ModelResp.err m) :
    loopGo send tool (fuel + 1) hist lc
      = ⟨if lc + 1 = 1 then hist.dropLast else hist, lc + 1⟩ := by
  simp only [loopGo, hs]

theorem loopGo_count_le (send : List ChatMsgV → ModelResp) (tool : FunctionCallV → ToolResultV) :
    ∀ (fuel : Nat) (hist : List ChatMsgV) (lc : Nat),
    (loopGo send tool fuel hist lc).loopCount ≤ lc + fuel := by
  intro fuel
  induction fuel with
  | zero => intro hist lc; exact Nat.le_of_eq (Nat.add_zero lc).symm
  | succ fuel ih =>
    intro hist lc
    cases hs : send hist with
    | fnCall c =>
      rw [loopGo_fnCall_step send tool fuel hist lc c hs]
      have := ih (hist ++ [ChatMsgV.fnCallMsg c,
        ChatMsgV.fnRespMsg c.name (tool c).output (tool c).error]) (lc + 1)
      omega
    | text raw =>
      rw [loopGo_text_step send tool fuel hist lc raw hs]
      show lc + 1 ≤ lc + (fuel + 1)
      omega
    | err m =>
      rw [loopGo_err_step send tool fuel hist lc m hs]
      show lc + 1 ≤ lc + (fuel + 1)
      omega

theorem loopGo_all_calls (send : List ChatMsgV → ModelResp) (tool : FunctionCallV → ToolResultV)
    (hcall : ∀ h, ∃ c, send h = ModelResp.fnCall c) :
    ∀ (fuel : Nat) (hist : List ChatMsgV) (lc : Nat),
    (loopGo send tool fuel hist lc).loopCount = lc + fuel ∧
    (loopGo send tool fuel hist lc).history.length = hist.length + 2 * fuel := by
  intro fuel
  induction fuel with
  | zero =>
    intro hist lc
    refine ⟨(Nat.add_zero lc).symm, ?_⟩
    show hist.length = hist.length + 2 * 0
    omega
  | succ fuel ih =>
    intro hist lc
    obtain ⟨c, hc⟩ := hcall hist
    rw [loopGo_fnCall_step send tool fuel hist lc c hc]
    rcases ih (hist ++ [ChatMsgV.fnCallMsg c,
      ChatMsgV.fnRespMsg c.name (tool c).output (tool c).error]) (lc + 1) with ⟨h1, h2⟩
    refine ⟨by omega, ?_⟩
    rw [h2, List.length_append]
    show hist.length + 2 + 2 * fuel = hist.length + 2 * (fuel + 1)
    omega

theorem loopGo_no_orphan (send : List ChatMsgV → ModelResp) (tool : FunctionCallV → ToolResultV) :
    ∀ (fuel : Nat) (hist : List ChatMsgV) (lc : Nat),
    noOrphan hist = true → (lc = 0 → noOrphan hist.dropLast = true) →
    noOrphan (loopGo send tool fuel hist lc).history = true := by
  intro fuel
  induction fuel with
  | zero => intro hist lc h1 _; exact h1
  | succ fuel ih =>
    intro hist lc h1 h2
    cases hs : send hist with
    | fnCall c =>
      rw [loopGo_fnCall_step send tool fuel hist lc c hs]
      apply ih _ (lc + 1)
      · rw [noOrphan_append _ _ h1]
        exact noOrphan_pair c (tool c).output (tool c).error
      · omega
    | text raw =>
      rw [loopGo_text_step send tool fuel hist lc raw hs]
      show noOrphan (hist ++ [ChatMsgV.assistant (stripInlineThinkingTags raw).content]) = true
      rw [noOrphan_append _ _ h1]
      exact noOrphan_single_assistant _
    | err m =>
      rw [loopGo_err_step send tool fuel hist lc m hs]
      show noOrphan (if lc + 1 = 1 then hist.dropLast else hist) = true
      split
      · next hlc => exact h2 (by omega)
      · exact h1

/-- Claim C1 (amended) — per user turn the loop makes at most 15 model
round-trips; the budget warning is shown exactly when all 15 round-trips were
used (whether or not the 15th returned plain text); and when the model
returns function calls on every round-trip, the loop stops after the 15th
with the warning, leaving the history with matched functionCall /
functionResponse pairs (no orphaned call) and exactly 15 appended pairs. -/
theorem agent_loop_budget (send : List ChatMsgV → ModelResp) (tool : FunctionCallV → ToolResultV)
    (hist : List ChatMsgV) (t : List Char) :
    (doSendMessage send tool hist t).loopCount ≤ MAX_TOOL_LOOPS
    ∧ ((doSendMessage send tool hist t).warned = true
        ↔ (doSendMessage send tool hist t).loopCount = MAX_TOOL_LOOPS)
    ∧ ((∀ h, ∃ c, send h = ModelResp.fnCall c) → noOrphan hist = true →
        (doSendMessage send tool hist t).loopCount = MAX_TOOL_LOOPS
        ∧ (doSendMessage send tool hist t).warned = true
        ∧ noOrphan (doSendMessage send tool hist t).history = true
        ∧ (doSendMessage send tool hist t).history.length
            = hist.length + 1 + 2 * MAX_TOOL_LOOPS) := by
  have hds : doSendMessage send tool hist t
      = ⟨(loopGo send tool MAX_TOOL_LOOPS (hist ++ [ChatMsgV.user t]) 0).history,
         (loopGo send tool MAX_TOOL_LOOPS (hist ++ [ChatMsgV.user t]) 0).loopCount,
         decide (MAX_TOOL_LOOPS
           ≤ (loopGo send tool MAX_TOOL_LOOPS (hist ++ [ChatMsgV.user t]) 0).loopCount)⟩ := rfl
  have hle := loopGo_count_le send tool MAX_TOOL_LOOPS (hist ++ [ChatMsgV.user t]) 0
  refine ⟨by rw [hds]; simpa using hle, ?_, ?_⟩
  · rw [hds]
    simp only [decide_eq_true_eq]
    omega
  · intro hcalls hno
    rcases loopGo_all_calls send tool hcalls MAX_TOOL_LOOPS (hist ++ [ChatMsgV.user t]) 0
      with ⟨hcnt, hlen⟩
    have horph := loopGo_no_orphan send tool MAX_TOOL_LOOPS (hist ++ [ChatMsgV.user t]) 0
      ((noOrphan_append hist [ChatMsgV.user t] hno).trans (noOrphan_single_user t))
      (fun _ => by rw [List.dropLast_concat]; exact hno)
    rw [hds]
    refine ⟨by simpa using hcnt, by simp [hcnt], horph, ?_⟩
    simp only [hlen, List.length_append, List.length_cons, List.length_nil]

/-- Model oracle for the C1 counterexample: 14 function calls, then plain
text on the 15th round-trip (the history grows by 2 entries per completed
round, so round 15 starts at history length 29). -/
def cexSend : List ChatMsgV → ModelResp :=
  fun h =>
    if 29 ≤ h.length then ModelResp.text (strL "done")
    else ModelResp.fnCall ⟨strL "exec", JsonVal.obj []⟩

/-- Tool oracle for the C1 counterexample. -/
def cexTool : FunctionCallV → ToolResultV := fun _ => ⟨strL "ok", false⟩

/-- Counterexample to C1 as stated: a turn whose final permitted (15th)
round-trip returns plain text still shows the budget warning — the code
warns whenever `loopCount >= MAX_TOOL_LOOPS`, not only when the budget was
exhausted before plain text arrived. -/
theorem agent_loop_warning_counterexample :
    (doSendMessage cexSend cexTool [] (strL "hi")).warned = true
    ∧ (doSendMessage cexSend cexTool [] (strL "hi")).history.getLast?
        = some (ChatMsgV.assistant (strL "done")) :=
  ⟨rfl, rfl⟩

/-- Witness for the amended C1 at a concrete always-calling oracle. -/
theorem agent_loop_budget_witness :
    (doSendMessage (fun _ => ModelResp.fnCall ⟨strL "exec", JsonVal.obj []⟩) cexTool []
        (strL "hi")).loopCount = MAX_TOOL_LOOPS
    ∧ (doSendMessage (fun _ => ModelResp.fnCall ⟨strL "exec", JsonVal.obj []⟩) cexTool []
        (strL "hi")).warned = true
    ∧ noOrphan (doSendMessage (fun _ => ModelResp.fnCall ⟨strL "exec", JsonVal.obj []⟩) cexTool []
        (strL "hi")).history = true
    ∧ (doSendMessage (fun _ => ModelResp.fnCall ⟨strL "exec", JsonVal.obj []⟩) cexTool []
        (strL "hi")).history.length = ([] : List ChatMsgV).length + 1 + 2 * MAX_TOOL_LOOPS :=
  (agent_loop_budget (fun _ => ModelResp.fnCall ⟨strL "exec", JsonVal.obj []⟩) cexTool []
    (strL "hi")).2.2 (fun _ => ⟨_, rfl⟩) rfl

/-- Claim C3 — a transport failure (sendMessage throws) on the very first
round-trip of a user turn removes exactly the just-added user entry: the
history equals and has the same length as before the turn began, leaving no
unanswered user prompt. -/
theorem first_send_failure_rolls_back (send : List ChatMsgV → ModelResp)
    (tool : FunctionCallV → ToolResultV) (hist : List ChatMsgV) (t : List Char)
    (m : List Char) (h : send (hist ++ [ChatMsgV.user t]) = ModelResp.err m) :
    (doSendMessage send tool hist t).history = hist
    ∧ (doSendMessage send tool hist t).history.length = hist.length := by
  have hlg : loopGo send tool MAX_TOOL_LOOPS (hist ++ [ChatMsgV.user t]) 0
      = ⟨hist, 1⟩ := by
    show loopGo send tool (14 + 1) (hist ++ [ChatMsgV.user t]) 0 = ⟨hist, 1⟩
    rw [loopGo_err_step send tool 14 (hist ++ [ChatMsgV.user t]) 0 m h]
    simp [List.dropLast_concat]
  have hds : doSendMessage send tool hist t = ⟨hist, 1, false⟩ := by
    unfold doSendMessage
    rw [hlg]
    rfl
  rw [hds]
  exact ⟨rfl, rfl⟩

/-- Witness for C3 at a concrete failing transport and nonempty history. -/
theorem first_send_failure_rolls_back_witness :
    (doSendMessage (fun _ => ModelResp.err (strL "HTTP 500")) cexTool
        [ChatMsgV.user (strL "x"), ChatMsgV.assistant (strL "y")] (strL "hi")).history
      = [ChatMsgV.user (strL "x"), ChatMsgV.assistant (strL "y")]
    ∧ (doSendMessage (fun _ => ModelResp.err (strL "HTTP 500")) cexTool
        [ChatMsgV.user (strL "x"), ChatMsgV.assistant (strL "y")] (strL "hi")).history.length
      = [ChatMsgV.user (strL "x"), ChatMsgV.assistant (strL "y")].length :=
  first_send_failure_rolls_back (fun _ => ModelResp.err (strL "HTTP 500")) cexTool
    [ChatMsgV.user (strL "x"), ChatMsgV.assistant (strL "y")] (strL "hi") (strL "HTTP 500") rfl

/-! ## Tool-boundary theorems (claim C4) -/

/-- Claim C4 (amended) — `executeTool` returns the `Unknown tool: <name>`
result with the error flag for every unregistered name instead of throwing;
the registered web_search and web_fetch tools never raise past their
boundary and surface every failure — an empty query or URL, a thrown fetch,
a non-ok HTTP status — as an error-flagged result; and the exec tool
returns every spawn-path failure as a result; but a missing or blank exec
command makes exec's execute throw (the validation at exec.ts line 88 sits
before its try block), so that one failure raises past the tool boundary
instead of becoming an error-flagged result. -/
theorem tool_boundary_amended (execI wsI wfI : JsonVal → ToolOutcome)
    (name : List Char) (args : JsonVal) :
    (name ∉ toolNames →
      executeTool execI wsI wfI name args = Except.ok ⟨strL "Unknown tool: " ++ name, true⟩)
    ∧ (∀ (key : Option (List Char)) (sf : Except (List Char) HttpRespV)
         (sj : List Char → Except (List Char) SerperResponseV)
         (df : Except (List Char) HttpRespV)
         (dj : List Char → Except (List Char) DdgResponseV) (wargs : WebSearchArgsV),
        ∃ r, webSearchExecute key sf sj df dj wargs = Except.ok r)
    ∧ (∀ (key : Option (List Char)) (sf : Except (List Char) HttpRespV)
         (sj : List Char → Except (List Char) SerperResponseV)
         (df : Except (List Char) HttpRespV)
         (dj : List Char → Except (List Char) DdgResponseV) (wargs : WebSearchArgsV),
        trim (wargs.query.getD []) = [] →
        webSearchExecute key sf sj df dj wargs
          = Except.ok ⟨strL "Error: empty search query.", true⟩)
    ∧ (∀ (key : Option (List Char)) (sf : Except (List Char) HttpRespV)
         (sj : List Char → Except (List Char) SerperResponseV)
         (df : Except (List Char) HttpRespV)
         (dj : List Char → Except (List Char) DdgResponseV) (wargs : WebSearchArgsV)
         (e : List Char),
        trim (wargs.query.getD []) ≠ [] →
        webSearchAttempt key sf sj df dj (trim (wargs.query.getD []))
            (webSearchCount wargs) = Except.error e →
        webSearchExecute key sf sj df dj wargs
          = Except.ok ⟨strL "Web search error: " ++ e, true⟩)
    ∧ (∀ (resp : HttpRespV) (sj : List Char → Except (List Char) SerperResponseV)
         (q : List Char) (cnt : Int), resp.ok = false →
        ∃ r, searchSerper (Except.ok resp) sj q cnt = Except.ok r ∧ r.error = true)
    ∧ (∀ (resp : HttpRespV) (dj : List Char → Except (List Char) DdgResponseV)
         (q : List Char), resp.ok = false →
        ∃ r, searchDdg (Except.ok resp) dj q = Except.ok r ∧ r.error = true)
    ∧ (∀ (fres : Except (List Char) FetchRespV) (fargs : WebFetchArgsV),
        ∃ r, webFetchExecute fres fargs = Except.ok r)
    ∧ (∀ (fres : Except (List Char) FetchRespV) (fargs : WebFetchArgsV),
        trim (fargs.url.getD []) = [] →
        webFetchExecute fres fargs = Except.ok ⟨strL "Error: empty URL.", true⟩)
    ∧ (∀ (fargs : WebFetchArgsV) (e : List Char),
        trim (fargs.url.getD []) ≠ [] →
        webFetchExecute (Except.error e) fargs
          = Except.ok ⟨strL "Fetch error (" ++ trim (fargs.url.getD []) ++ strL "): " ++ e,
              true⟩)
    ∧ (∀ (resp : FetchRespV) (fargs : WebFetchArgsV),
        trim (fargs.url.getD []) ≠ [] → resp.ok = false →
        ∃ r, webFetchExecute (Except.ok resp) fargs = Except.ok r ∧ r.error = true)
    ∧ (∀ (spawn : Except (List Char) SpawnOutcome) (eargs : ExecArgsV) (c : List Char),
        trimmedCommand eargs.command = some c →
        ∃ r, execExecute spawn eargs = Except.ok r)
    ∧ (∀ (spawn : Except (List Char) SpawnOutcome) (eargs : ExecArgsV),
        trimmedCommand eargs.command = none →
        execExecute spawn eargs = Except.error (strL "Provide a command to start.")) := by
  refine ⟨?_, ?_, ?_, ?_, ?_, ?_, ?_, ?_, ?_, ?_, ?_, ?_⟩
  · intro hname
    simp only [toolNames, List.mem_cons, List.not_mem_nil, or_false, not_or] at hname
    simp [executeTool, hname.1, hname.2.1, hname.2.2]
  · intro key sf sj df dj wargs
    by_cases hq : trim (wargs.query.getD []) = []
    · exact ⟨⟨strL "Error: empty search query.", true⟩, by simp [webSearchExecute, hq]⟩
    · cases hatt : webSearchAttempt key sf sj df dj (trim (wargs.query.getD []))
          (webSearchCount wargs) with
      | error e =>
        refine ⟨⟨strL "Web search error: " ++ e, true⟩, ?_⟩
        unfold webSearchExecute
        rw [if_neg hq, hatt]
      | ok r =>
        refine ⟨r, ?_⟩
        unfold webSearchExecute
        rw [if_neg hq, hatt]
  · intro key sf sj df dj wargs hq
    simp [webSearchExecute, hq]
  · intro key sf sj df dj wargs e hq hatt
    unfold webSearchExecute
    rw [if_neg hq, hatt]
  · intro resp sj q cnt hok
    exact ⟨⟨strL "Serper API error (" ++ strL (toString resp.status) ++ strL "): "
        ++ (jsOr (some resp.bodyText) (some resp.statusText)).getD [], true⟩,
      by simp [searchSerper, hok], rfl⟩
  · intro resp dj q hok
    exact ⟨⟨strL "DuckDuckGo API error (" ++ strL (toString resp.status) ++ strL "): "
        ++ resp.statusText, true⟩, by simp [searchDdg, hok], rfl⟩
  · intro fres fargs
    by_cases hu : trim (fargs.url.getD []) = []
    · exact ⟨⟨strL "Error: empty URL.", true⟩, by simp [webFetchExecute, hu]⟩
    · cases fres with
      | error e =>
        refine ⟨⟨strL "Fetch error (" ++ trim (fargs.url.getD []) ++ strL "): " ++ e, true⟩, ?_⟩
        unfold webFetchExecute
        rw [if_neg hu]
      | ok res =>
        cases hok : res.ok with
        | false =>
          exact ⟨⟨strL "HTTP " ++ strL (toString res.status) ++ strL ": " ++ res.statusText
              ++ strL " (" ++ trim (fargs.url.getD []) ++ strL ")", true⟩,
            by simp [webFetchExecute, hu, hok]⟩
        | true =>
          exact ⟨⟨strL "Fetched " ++ trim (fargs.url.getD []) ++ strL " ("
              ++ strL (toString res.tookMs) ++ strL "ms, "
              ++ (res.contentType.getD []).takeWhile (fun c => !decide (c = ';'))
              ++ strL "):\n\n" ++ webFetchContent res fargs, false⟩,
            by simp [webFetchExecute, hu, hok]⟩
  · intro fres fargs hu
    simp [webFetchExecute, hu]
  · intro fargs e hu
    unfold webFetchExecute
    rw [if_neg hu]
  · intro resp fargs hu hok
    exact ⟨⟨strL "HTTP " ++ strL (toString resp.status) ++ strL ": " ++ resp.statusText
        ++ strL " (" ++ trim (fargs.url.getD []) ++ strL ")", true⟩,
      by simp [webFetchExecute, hu, hok], rfl⟩
  · intro spawn eargs c hcmd
    unfold execExecute
    rw [hcmd]
    cases spawn with
    | error e => exact ⟨_, rfl⟩
    | ok o => exact ⟨_, rfl⟩
  · intro spawn eargs hcmd
    unfold execExecute
    rw [hcmd]

/-- Counterexample to C4 as stated: at the concrete argument object with a
blank command, exec's execute throws (`Except.error` crossing the boundary)
instead of returning an error-flagged result. -/
theorem exec_empty_command_counterexample :
    execExecute (Except.ok ⟨[], [], some 0, false⟩) ⟨some (strL " "), none, none⟩
      = Except.error (strL "Provide a command to start.") := rfl

/-- Witness for the amended C4 at concrete inputs: an unregistered name; a
web search that never raises, an empty query, a DuckDuckGo fetch throw
caught into a result, non-ok Serper and DuckDuckGo statuses; a web fetch
that never raises, an empty URL, a thrown fetch, a 404; a valid exec
command with a successful spawn; and a missing exec command. -/
theorem tool_boundary_amended_witness :
    (executeTool (fun _ => Except.ok ⟨[], false⟩) (fun _ => Except.ok ⟨[], false⟩)
        (fun _ => Except.ok ⟨[], false⟩) (strL "nope") (JsonVal.obj [])
      = Except.ok ⟨strL "Unknown tool: " ++ strL "nope", true⟩)
    ∧ (∃ r, webSearchExecute none (Except.ok ⟨true, 200, strL "OK", []⟩)
        (fun _ => Except.error (strL "bad json")) (Except.ok ⟨true, 200, strL "OK", []⟩)
        (fun _ => Except.error (strL "bad json")) ⟨some (strL "cats"), none⟩ = Except.ok r)
    ∧ (webSearchExecute none (Except.ok ⟨true, 200, strL "OK", []⟩)
        (fun _ => Except.error (strL "bad json")) (Except.ok ⟨true, 200, strL "OK", []⟩)
        (fun _ => Except.error (strL "bad json")) ⟨some (strL "  "), none⟩
      = Except.ok ⟨strL "Error: empty search query.", true⟩)
    ∧ (webSearchExecute none (Except.ok ⟨true, 200, strL "OK", []⟩)
        (fun _ => Except.error (strL "bad json")) (Except.error (strL "socket hang up"))
        (fun _ => Except.error (strL "bad json")) ⟨some (strL "cats"), none⟩
      = Except.ok ⟨strL "Web search error: " ++ strL "socket hang up", true⟩)
    ∧ (∃ r, searchSerper (Except.ok ⟨false, 500, strL "Internal Server Error", []⟩)
        (fun _ => Except.error (strL "bad json")) (strL "cats") 5 = Except.ok r
        ∧ r.error = true)
    ∧ (∃ r, searchDdg (Except.ok ⟨false, 429, strL "Too Many Requests", []⟩)
        (fun _ => Except.error (strL "bad json")) (strL "cats") = Except.ok r
        ∧ r.error = true)
    ∧ (∃ r, webFetchExecute
        (Except.ok ⟨true, 200, strL "OK", some (strL "text/plain"), strL "hi", 12⟩)
        ⟨some (strL "https://example.com"), none⟩ = Except.ok r)
    ∧ (webFetchExecute
        (Except.ok ⟨true, 200, strL "OK", some (strL "text/plain"), strL "hi", 12⟩)
        ⟨some (strL "  "), none⟩ = Except.ok ⟨strL "Error: empty URL.", true⟩)
    ∧ (webFetchExecute (Except.error (strL "timeout"))
        ⟨some (strL "https://example.com"), none⟩
      = Except.ok ⟨strL "Fetch error ("
          ++ trim ((⟨some (strL "https://example.com"), none⟩ : WebFetchArgsV).url.getD [])
          ++ strL "): " ++ strL "timeout", true⟩)
    ∧ (∃ r, webFetchExecute (Except.ok ⟨false, 404, strL "Not Found", none, [], 3⟩)
        ⟨some (strL "https://example.com"), none⟩ = Except.ok r ∧ r.error = true)
    ∧ (∃ r, execExecute (Except.ok ⟨strL "hi", [], some 0, false⟩)
        ⟨some (strL "echo hi"), none, none⟩ = Except.ok r)
    ∧ (execExecute (Except.ok ⟨[], [], some 0, false⟩) ⟨none, none, none⟩
        = Except.error (strL "Provide a command to start.")) := by
  have T := tool_boundary_amended (fun _ => Except.ok ⟨[], false⟩)
    (fun _ => Except.ok ⟨[], false⟩) (fun _ => Except.ok ⟨[], false⟩)
    (strL "nope") (JsonVal.obj [])
  exact ⟨T.1 (by decide),
    T.2.1 none (Except.ok ⟨true, 200, strL "OK", []⟩) (fun _ => Except.error (strL "bad json"))
      (Except.ok ⟨true, 200, strL "OK", []⟩) (fun _ => Except.error (strL "bad json"))
      ⟨some (strL "cats"), none⟩,
    T.2.2.1 none (Except.ok ⟨true, 200, strL "OK", []⟩)
      (fun _ => Except.error (strL "bad json")) (Except.ok ⟨true, 200, strL "OK", []⟩)
      (fun _ => Except.error (strL "bad json")) ⟨some (strL "  "), none⟩ (by decide),
    T.2.2.2.1 none (Except.ok ⟨true, 200, strL "OK", []⟩)
      (fun _ => Except.error (strL "bad json")) (Except.error (strL "socket hang up"))
      (fun _ => Except.error (strL "bad json")) ⟨some (strL "cats"), none⟩
      (strL "socket hang up") (by decide) rfl,
    T.2.2.2.2.1 ⟨false, 500, strL "Internal Server Error", []⟩
      (fun _ => Except.error (strL "bad json")) (strL "cats") 5 rfl,
    T.2.2.2.2.2.1 ⟨false, 429, strL "Too Many Requests", []⟩
      (fun _ => Except.error (strL "bad json")) (strL "cats") rfl,
    T.2.2.2.2.2.2.1
      (Except.ok ⟨true, 200, strL "OK", some (strL "text/plain"), strL "hi", 12⟩)
      ⟨some (strL "https://example.com"), none⟩,
    T.2.2.2.2.2.2.2.1
      (Except.ok ⟨true, 200, strL "OK", some (strL "text/plain"), strL "hi", 12⟩)
      ⟨some (strL "  "), none⟩ (by decide),
    T.2.2.2.2.2.2.2.2.1 ⟨some (strL "https://example.com"), none⟩ (strL "timeout")
      (by decide),
    T.2.2.2.2.2.2.2.2.2.1 ⟨false, 404, strL "Not Found", none, [], 3⟩
      ⟨some (strL "https://example.com"), none⟩ (by decide) rfl,
    T.2.2.2.2.2.2.2.2.2.2.1 (Except.ok ⟨strL "hi", [], some 0, false⟩)
      ⟨some (strL "echo hi"), none, none⟩ (strL "echo hi") rfl,
    T.2.2.2.2.2.2.2.2.2.2.2 (Except.ok ⟨[], [], some 0, false⟩) ⟨none, none, none⟩ rfl⟩

/-! ## PKCE theorem (claim C8) -/

theorem b64urlChar_ne_pad (n : Nat) : b64urlChar n ≠ '=' := by
  unfold b64urlChar
  by_cases hn : n < b64Alphabet.length
  · have hmem : b64Alphabet.getD n 'A' ∈ b64Alphabet := by
      rw [List.getD_eq_getElem?_getD, List.getElem?_eq_getElem hn]
      simp
    intro heq
    rw [heq] at hmem
    revert hmem
    decide
  · rw [List.getD_eq_default _ _ (by omega)]
    decide

theorem base64urlEncode_no_pad (bs : List Nat) : ∀ c ∈ base64urlEncode bs, c ≠ '=' := by
  induction bs using base64urlEncode.induct with
  | case1 b0 b1 b2 rest ih =>
    intro c hc
    simp only [base64urlEncode, List.cons_append, List.nil_append, List.mem_cons] at hc
    rcases hc with h | h | h | h | h
    · exact h ▸ b64urlChar_ne_pad _
    · exact h ▸ b64urlChar_ne_pad _
    · exact h ▸ b64urlChar_ne_pad _
    · exact h ▸ b64urlChar_ne_pad _
    · exact ih c h
  | case2 b0 b1 =>
    intro c hc
    simp only [base64urlEncode, List.mem_cons, List.not_mem_nil, or_false] at hc
    rcases hc with h | h | h <;> exact h ▸ b64urlChar_ne_pad _
  | case3 b0 =>
    intro c hc
    simp only [base64urlEncode, List.mem_cons, List.not_mem_nil, or_false] at hc
    rcases hc with h | h <;> exact h ▸ b64urlChar_ne_pad _
  | case4 =>
    intro c hc
    simp [base64urlEncode] at hc

/-- Claim C8 — for every verifier generatePkce can produce (hex of the random
bytes, with the SHA-256 primitive as a parameter), the returned challenge is
the base64url encoding of the SHA-256 hash of the verifier, and it contains
no padding character. -/
theorem pkce_challenge_is_b64url_sha (sha256 : List Nat → List Nat) (randomBytes32 : List Nat) :
    (generatePkce sha256 randomBytes32).challenge
      = base64urlEncode (sha256 ((generatePkce sha256 randomBytes32).verifier.map Char.toNat))
    ∧ ∀ c ∈ (generatePkce sha256 randomBytes32).challenge, c ≠ '=' :=
  ⟨rfl, base64urlEncode_no_pad _⟩

/-- Witness for C8 at a concrete hash stub and random bytes (the stub maps
everything to the bytes of `Man`, whose base64url encoding is `TWFu`). -/
theorem pkce_challenge_is_b64url_sha_witness :
    (generatePkce (fun _ => [77, 97, 110]) [0]).challenge
      = base64urlEncode ((fun _ => [77, 97, 110])
          (((generatePkce (fun _ => [77, 97, 110]) [0]).verifier).map Char.toNat))
    ∧ 'T' ≠ '=' :=
  ⟨(pkce_challenge_is_b64url_sha (fun _ => [77, 97, 110]) [0]).1,
   (pkce_challenge_is_b64url_sha (fun _ => [77, 97, 110]) [0]).2 'T' (by decide)⟩

/-! ## Callback-listener theorems (claim C9) -/

/-- Counterexample to C9 as stated: when the wait ends by timeout, the
promise settles (rejected, no resolved url) but the listening socket is not
released — `startCallbackServer` never closes the server on the timeout
path. -/
theorem callback_timeout_leaves_socket_open :
    (runCallback [CbEvent.timeoutFire]).settled = true
    ∧ (runCallback [CbEvent.timeoutFire]).resolvedUrl = none
    ∧ (runCallback [CbEvent.timeoutFire]).listening = true
    ∧ (runCallback [CbEvent.timeoutFire]).releases = 0 := by
  decide

theorem cbStep_release_invariant (st : CbState) (e : CbEvent)
    (h : (st.listening = true → st.releases = 0) ∧ st.releases ≤ 1) :
    ((cbStep st e).listening = true → (cbStep st e).releases = 0)
    ∧ (cbStep st e).releases ≤ 1 := by
  obtain ⟨h1, h2⟩ := h
  cases e with
  | request u =>
    cases hl : st.listening with
    | false =>
      have hstep : cbStep st (CbEvent.request u) = st := by
        cases u <;> simp [cbStep, hl]
      rw [hstep]
      exact ⟨h1, h2⟩
    | true =>
      cases u with
      | none =>
        have hstep : cbStep st (CbEvent.request none) = st := by simp [cbStep, hl]
        rw [hstep]
        exact ⟨h1, h2⟩
      | some u =>
        by_cases hp : pathOf u = cbPath
        · have hr0 : st.releases = 0 := h1 hl
          have hstep : cbStep st (CbEvent.request (some u))
              = { settled := true,
                  resolvedUrl := if st.settled then st.resolvedUrl else some u,
                  listening := false,
                  closeCalls := st.closeCalls + 1,
                  releases := st.releases + 1 } := by
            simp [cbStep, hl, hp]
          rw [hstep]
          exact ⟨fun hfalse => absurd hfalse (by simp), by simp [hr0]⟩
        · have hstep : cbStep st (CbEvent.request (some u)) = st := by
            simp [cbStep, hl, hp]
          rw [hstep]
          exact ⟨h1, h2⟩
  | timeoutFire =>
    cases hs : st.settled with
    | true =>
      have hstep : cbStep st CbEvent.timeoutFire = st := by simp [cbStep, hs]
      rw [hstep]
      exact ⟨h1, h2⟩
    | false =>
      have hstep : cbStep st CbEvent.timeoutFire
          = { st with settled := true, resolvedUrl := none } := by simp [cbStep, hs]
      rw [hstep]
      exact ⟨h1, h2⟩
  | callerClose =>
    cases hl : st.listening with
    | true =>
      have hr0 : st.releases = 0 := h1 hl
      have hstep : cbStep st CbEvent.callerClose
          = ⟨st.settled, st.resolvedUrl, false, st.closeCalls + 1, st.releases + 1⟩ := by
        simp [cbStep, hl]
      rw [hstep]
      exact ⟨fun hfalse => absurd hfalse (by simp), by simp [hr0]⟩
    | false =>
      have hstep : cbStep st CbEvent.callerClose
          = ⟨st.settled, st.resolvedUrl, false, st.closeCalls + 1, st.releases⟩ := by
        simp [cbStep, hl]
      rw [hstep]
      exact ⟨fun hfalse => absurd hfalse (by simp), h2⟩

theorem runCallback_foldl_invariant (evs : List CbEvent) :
    ∀ st : CbState, ((st.listening = true → st.releases = 0) ∧ st.releases ≤ 1) →
    ((evs.foldl cbStep st).listening = true → (evs.foldl cbStep st).releases = 0)
    ∧ (evs.foldl cbStep st).releases ≤ 1 := by
  induction evs with
  | nil => intro st h; exact h
  | cons e evs ih =>
    intro st h
    exact ih (cbStep st e) (cbStep_release_invariant st e h)

/-- Claim C9 (amended) — a request to the registered callback path while
listening resolves the wait and releases the socket exactly once; the
timeout path rejects the wait without releasing the socket (closing is left
to the caller); and across any event trace the socket is released at most
once (never closed twice). -/
theorem callback_socket_release_amended :
    (∀ (st : CbState) (u : List Char), st.listening = true → pathOf u = cbPath →
        (cbStep st (CbEvent.request (some u))).listening = false
        ∧ (cbStep st (CbEvent.request (some u))).releases = st.releases + 1
        ∧ (cbStep st (CbEvent.request (some u))).settled = true)
    ∧ (∀ st : CbState, (cbStep st CbEvent.timeoutFire).listening = st.listening
        ∧ (cbStep st CbEvent.timeoutFire).releases = st.releases)
    ∧ (∀ evs : List CbEvent, (runCallback evs).releases ≤ 1) := by
  refine ⟨?_, ?_, ?_⟩
  · intro st u hl hp
    simp [cbStep, hl, hp]
  · intro st
    by_cases hs : st.settled = true
    · simp [cbStep, hs]
    · have hs2 : st.settled = false := by revert hs; cases st.settled <;> simp
      simp [cbStep, hs2]
  · intro evs
    exact (runCallback_foldl_invariant evs cbInit (by simp [cbInit])).2

/-- Witness for the amended C9 at a concrete state, url and trace. -/
theorem callback_socket_release_amended_witness :
    ((cbStep cbInit (CbEvent.request (some (strL "/oauth-callback?code=1")))).listening = false
      ∧ (cbStep cbInit (CbEvent.request (some (strL "/oauth-callback?code=1")))).releases
          = cbInit.releases + 1
      ∧ (cbStep cbInit (CbEvent.request (some (strL "/oauth-callback?code=1")))).settled = true)
    ∧ ((cbStep cbInit CbEvent.timeoutFire).listening = cbInit.listening
      ∧ (cbStep cbInit CbEvent.timeoutFire).releases = cbInit.releases)
    ∧ (runCallback [CbEvent.request (some (strL "/oauth-callback?code=1")),
        CbEvent.callerClose]).releases ≤ 1 :=
  ⟨callback_socket_release_amended.1 cbInit (strL "/oauth-callback?code=1") rfl (by decide),
   callback_socket_release_amended.2.1 cbInit,
   callback_socket_release_amended.2.2
     [CbEvent.request (some (strL "/oauth-callback?code=1")), CbEvent.callerClose]⟩

/-! ## Token-lifecycle theorem (claim C10) -/

/-- Claim C10 — when the stored token has not expired, getValidTokens returns
it with every field unchanged, performs no refresh call and no write, and
leaves the token file as it was; when it refreshes an expired token, only the
access and expires fields change — the refresh token, email and projectId are
preserved in both the returned value and the persisted file (which equals the
returned value). -/
theorem getValidTokens_frame (t : TokenDataV) (now : Int)
    (refreshFn : List Char → Except (List Char) RefreshResV) :
    (now < t.expires →
      getValidTokens (some t) now refreshFn = ⟨some t, some t, false, false⟩)
    ∧ (∀ r : RefreshResV, t.expires ≤ now → refreshFn t.refresh = Except.ok r →
        getValidTokens (some t) now refreshFn
          = ⟨some { t with access := r.access, expires := r.expires },
             some { t with access := r.access, expires := r.expires }, true, true⟩
        ∧ ({ t with access := r.access, expires := r.expires } : TokenDataV).refresh = t.refresh
        ∧ ({ t with access := r.access, expires := r.expires } : TokenDataV).email = t.email
        ∧ ({ t with access := r.access, expires := r.expires } : TokenDataV).projectId
            = t.projectId) := by
  constructor
  · intro hvalid
    simp [getValidTokens, hvalid]
  · intro r hexp hr
    have hnl : ¬ now < t.expires := not_lt.mpr hexp
    refine ⟨?_, rfl, rfl, rfl⟩
    simp [getValidTokens, hnl, hr]

/-- Witness for C10: a still-valid token is returned untouched, and an
expired token is refreshed with its refresh token, email and projectId
preserved. -/
theorem getValidTokens_frame_witness :
    (getValidTokens (some ⟨strL "a", strL "r", 100, some (strL "e"), strL "p"⟩) 50
        (fun _ => Except.error (strL "down"))
      = ⟨some ⟨strL "a", strL "r", 100, some (strL "e"), strL "p"⟩,
         some ⟨strL "a", strL "r", 100, some (strL "e"), strL "p"⟩, false, false⟩)
    ∧ (getValidTokens (some ⟨strL "a", strL "r", 100, some (strL "e"), strL "p"⟩) 200
        (fun _ => Except.ok ⟨strL "a2", 900⟩)
      = ⟨some ⟨strL "a2", strL "r", 900, some (strL "e"), strL "p"⟩,
         some ⟨strL "a2", strL "r", 900, some (strL "e"), strL "p"⟩, true, true⟩) :=
  ⟨(getValidTokens_frame ⟨strL "a", strL "r", 100, some (strL "e"), strL "p"⟩ 50
      (fun _ => Except.error (strL "down"))).1 (by decide),
   ((getValidTokens_frame ⟨strL "a", strL "r", 100, some (strL "e"), strL "p"⟩ 200
      (fun _ => Except.ok ⟨strL "a2", 900⟩)).2 ⟨strL "a2", 900⟩ (by decide) rfl).1⟩

/-! ## Thinking-tag stripper theorem (claim C7) -/

theorem dropWhile_head_false (p : Char → Bool) (l : List Char) (c : Char) (t : List Char)
    (h : l.dropWhile p = c :: t) : p c = false := by
  induction l with
  | nil => exact absurd h (by simp)
  | cons d rest ih =>
    rw [List.dropWhile_cons] at h
    by_cases hd : p d = true
    · exact ih (by rwa [if_pos hd] at h)
    · rw [if_neg hd] at h
      cases h
      exact Bool.of_not_eq_true hd

theorem dropWhile_sublist_self (p : Char → Bool) (l : List Char) :
    (l.dropWhile p).Sublist l := by
  induction l with
  | nil => exact List.Sublist.refl []
  | cons c rest ih =>
    rw [List.dropWhile_cons]
    by_cases hc : p c = true
    · rw [if_pos hc]
      exact ih.trans (List.sublist_cons_self c rest)
    · rw [if_neg hc]

theorem trim_sublist (s : List Char) : (trim s).Sublist s := by
  have h1 : (trimLeft s).Sublist s := dropWhile_sublist_self jsSpace s
  have h2 : (trimRight (trimLeft s)).Sublist (trimLeft s) := by
    have := (dropWhile_sublist_self jsSpace (trimLeft s).reverse).reverse
    rwa [List.reverse_reverse] at this
  exact h2.trans h1

theorem take_sublist_take (l : List Char) (a b : Nat) (h : a ≤ b) :
    (l.take a).Sublist (l.take b) := by
  have : l.take a = (l.take b).take a := by
    rw [List.take_take, Nat.min_eq_left h]
  rw [this]
  exact List.take_sublist a (l.take b)

theorem append_slice_sublist (raw acc : List Char) (li idx : Nat)
    (hsub : acc.Sublist (raw.take li)) (hle : li ≤ idx) :
    (acc ++ sliceL raw li idx).Sublist (raw.take idx) := by
  have hdecomp : raw.take idx = (raw.take idx).take li ++ (raw.take idx).drop li :=
    (List.take_append_drop li (raw.take idx)).symm
  have htt : (raw.take idx).take li = raw.take li := by
    rw [List.take_take, Nat.min_eq_left hle]
  rw [hdecomp, htt]
  exact List.Sublist.append hsub (List.Sublist.refl _)

theorem dropWhile_append_keep (p : Char → Bool) (pre : List Char) (c : Char) (t : List Char)
    (hc : p c = false) :
    ∃ pre2, (pre ++ c :: t).dropWhile p = pre2 ++ c :: t := by
  induction pre with
  | nil =>
    refine ⟨[], ?_⟩
    show (c :: t).dropWhile p = c :: t
    rw [List.dropWhile_cons, if_neg (by simp [hc])]
  | cons d rest ih =>
    obtain ⟨pre2, hp2⟩ := ih
    rw [List.cons_append, List.dropWhile_cons]
    by_cases hd : p d = true
    · rw [if_pos hd]
      exact ⟨pre2, hp2⟩
    · rw [if_neg hd]
      exact ⟨d :: rest, rfl⟩

theorem trim_head_not_space (y : List Char) :
    trim y = [] ∨ ∃ c t2, trim y = c :: t2 ∧ jsSpace c = false := by
  cases hz : trimLeft y with
  | nil =>
    left
    show trimRight (trimLeft y) = []
    rw [hz]
    rfl
  | cons c0 z2 =>
    right
    have hc0 : jsSpace c0 = false := dropWhile_head_false jsSpace y c0 z2 hz
    obtain ⟨pre2, hp2⟩ := dropWhile_append_keep jsSpace z2.reverse c0 [] hc0
    refine ⟨c0, pre2.reverse, ?_, hc0⟩
    show trimRight (trimLeft y) = c0 :: pre2.reverse
    rw [hz]
    show ((c0 :: z2).reverse.dropWhile jsSpace).reverse = c0 :: pre2.reverse
    rw [List.reverse_cons, hp2, List.reverse_append]
    rfl

theorem trim_revhead_not_space (y : List Char) :
    trim y = [] ∨ ∃ c w, (trim y).reverse = c :: w ∧ jsSpace c = false := by
  cases ht : (trim y).reverse with
  | nil =>
    left
    have := congrArg List.reverse ht
    rwa [List.reverse_reverse] at this
  | cons c w =>
    right
    refine ⟨c, w, rfl, ?_⟩
    have hrev : (trim y).reverse = ((trimLeft y).reverse).dropWhile jsSpace := by
      show (trimRight (trimLeft y)).reverse = _
      unfold trimRight trimLeft
      rw [List.reverse_reverse]
    rw [hrev] at ht
    exact dropWhile_head_false jsSpace _ c w ht

theorem trim_keeps_suffix (A t : List Char)
    (hhead : ∃ c t2, t = c :: t2 ∧ jsSpace c = false)
    (hlast : ∃ c w, t.reverse = c :: w ∧ jsSpace c = false) :
    ∃ pre, trim (A ++ t) = pre ++ t := by
  obtain ⟨c0, t2, ht, hc0⟩ := hhead
  obtain ⟨pre2, hp2⟩ := dropWhile_append_keep jsSpace A c0 t2 hc0
  refine ⟨pre2, ?_⟩
  unfold trim
  have hleft : trimLeft (A ++ t) = pre2 ++ t := by
    unfold trimLeft
    rw [ht]
    exact hp2
  rw [hleft]
  obtain ⟨c, w, hrev, hc⟩ := hlast
  unfold trimRight trimLeft
  rw [List.reverse_append, hrev, List.cons_append, List.dropWhile_cons,
    if_neg (by simp [hc]), ← List.cons_append, ← hrev, ← List.reverse_append,
    List.reverse_reverse]

theorem joinNl_concat_ex (ps : List (List Char)) (t : List Char) :
    ∃ A, joinNl (ps ++ [t]) = A ++ t := by
  induction ps with
  | nil => exact ⟨[], rfl⟩
  | cons p0 ps ih =>
    obtain ⟨A, hA⟩ := ih
    cases ps with
    | nil => exact ⟨p0 ++ ['\n'], by simp [joinNl]⟩
    | cons q qs =>
      refine ⟨p0 ++ '\n' :: A, ?_⟩
      show joinNl (p0 :: ((q :: qs) ++ [t])) = (p0 ++ '\n' :: A) ++ t
      have hstep : joinNl (p0 :: ((q :: qs) ++ [t]))
          = p0 ++ '\n' :: joinNl ((q :: qs) ++ [t]) := rfl
      rw [hstep, hA]
      simp

/-- Positions consumed by a match list: every match starts at or after `p`,
has positive length, and later matches start after its end. -/
inductive Chained : Nat → List TagMatch → Prop where
  | nil (p : Nat) : Chained p []
  | cons (p : Nat) (m : TagMatch) (ms : List TagMatch) :
      p ≤ m.idx → 0 < m.len → Chained (m.idx + m.len) ms → Chained p (m :: ms)

theorem Chained.mono (p q : Nat) (ms : List TagMatch) (hpq : p ≤ q)
    (h : Chained q ms) : Chained p ms := by
  cases h with
  | nil => exact Chained.nil p
  | cons _ m ms2 hqm hlen htail => exact Chained.cons p m ms2 (hpq.trans hqm) hlen htail

theorem matchTagRest_pos (s3 : List Char) (soFar : Nat) (isCl : Bool) (n : Nat) (cl : Bool)
    (h : matchTagAt.matchTagRest s3 soFar isCl = some (n, cl)) : 0 < n := by
  unfold matchTagAt.matchTagRest at h
  simp only [] at h
  split at h
  · exact absurd h (by simp)
  · split at h
    · cases h
      omega
    · exact absurd h (by simp)

theorem matchTagAt_pos (s : List Char) (n : Nat) (cl : Bool)
    (h : matchTagAt s = some (n, cl)) : 0 < n := by
  unfold matchTagAt at h
  split at h
  · rename_i s1
    simp only [] at h
    split at h
    · exact matchTagRest_pos _ _ _ _ _ h
    · exact matchTagRest_pos _ _ _ _ _ h
  · exact absurd h (by simp)

theorem scanTagsGo_chained : ∀ (fuel : Nat) (s : List Char) (pos : Nat),
    Chained pos (scanTagsGo fuel s pos) := by
  intro fuel
  induction fuel with
  | zero => intro s pos; exact Chained.nil pos
  | succ fuel ih =>
    intro s pos
    cases s with
    | nil => exact Chained.nil pos
    | cons c rest =>
      cases hm : matchTagAt (c :: rest) with
      | some ncl =>
        obtain ⟨n, cl⟩ := ncl
        have hstep : scanTagsGo (fuel + 1) (c :: rest) pos
            = ⟨pos, n, cl⟩ :: scanTagsGo fuel ((c :: rest).drop n) (pos + n) := by
          simp only [scanTagsGo, hm]
        rw [hstep]
        exact Chained.cons pos ⟨pos, n, cl⟩ _ (Nat.le_refl pos)
          (matchTagAt_pos _ _ _ hm) (ih _ _)
      | none =>
        have hstep : scanTagsGo (fuel + 1) (c :: rest) pos
            = scanTagsGo fuel rest (pos + 1) := by
          simp only [scanTagsGo, hm]
        rw [hstep]
        exact Chained.mono pos (pos + 1) _ (Nat.le_succ pos) (ih _ _)

theorem scanTags_chained (raw : List Char) : Chained 0 (scanTags raw) :=
  scanTagsGo_chained raw.length raw 0

/-- Fold invariant of the strip scan: the visible accumulator only draws from
the prefix of `raw` before the current position — before
`currentThinkingStart` while a tag is open, before `lastIndex` otherwise. -/
def StripInv (raw : List Char) (st : StripState) : Prop :=
  (st.inThinking = true →
    st.result.Sublist (raw.take st.currentThinkingStart)
    ∧ st.currentThinkingStart ≤ st.lastIndex)
  ∧ (st.inThinking = false → st.result.Sublist (raw.take st.lastIndex))

theorem stripStep_inv (raw : List Char) (regions : List CodeRegion) (st : StripState)
    (m : TagMatch) (hle : st.lastIndex ≤ m.idx) (hinv : StripInv raw st) :
    StripInv raw (stripStep raw regions st m)
    ∧ (stripStep raw regions st m).lastIndex ≤ m.idx + m.len := by
  obtain ⟨hin, hout⟩ := hinv
  by_cases hc : isInsideCode m.idx regions = true
  · have hstep : stripStep raw regions st m = st := by simp [stripStep, hc]
    rw [hstep]
    exact ⟨⟨hin, hout⟩, by omega⟩
  · have hcf : isInsideCode m.idx regions = false := Bool.of_not_eq_true hc
    cases hthink : st.inThinking with
    | false =>
      cases hclose : m.isClose with
      | false =>
        have hstep : stripStep raw regions st m
            = ⟨st.result ++ sliceL raw st.lastIndex m.idx, m.idx + m.len, true,
               st.thinkingParts, m.idx + m.len⟩ := by
          simp [stripStep, hcf, hthink, hclose]
        rw [hstep]
        refine ⟨⟨fun _ => ⟨?_, Nat.le_refl _⟩, fun hfalse => absurd hfalse (by simp)⟩,
          Nat.le_refl _⟩
        exact (append_slice_sublist raw st.result st.lastIndex m.idx (hout hthink) hle).trans
          (take_sublist_take raw m.idx (m.idx + m.len) (Nat.le_add_right _ _))
      | true =>
        have hstep : stripStep raw regions st m
            = ⟨st.result ++ sliceL raw st.lastIndex m.idx, m.idx + m.len, false,
               st.thinkingParts, st.currentThinkingStart⟩ := by
          simp [stripStep, hcf, hthink, hclose]
        rw [hstep]
        refine ⟨⟨fun hfalse => absurd hfalse (by simp), fun _ => ?_⟩, Nat.le_refl _⟩
        exact (append_slice_sublist raw st.result st.lastIndex m.idx (hout hthink) hle).trans
          (take_sublist_take raw m.idx (m.idx + m.len) (Nat.le_add_right _ _))
    | true =>
      rcases hin hthink with ⟨hsub, hcs⟩
      cases hclose : m.isClose with
      | true =>
        have hstep : stripStep raw regions st m
            = ⟨st.result, m.idx + m.len, false,
               st.thinkingParts ++ [trim (sliceL raw st.currentThinkingStart m.idx)],
               st.currentThinkingStart⟩ := by
          simp [stripStep, hcf, hthink, hclose]
        rw [hstep]
        refine ⟨⟨fun hfalse => absurd hfalse (by simp), fun _ => ?_⟩, Nat.le_refl _⟩
        exact hsub.trans (take_sublist_take raw st.currentThinkingStart (m.idx + m.len)
          (by omega))
      | false =>
        have hstep : stripStep raw regions st m
            = ⟨st.result, m.idx + m.len, true, st.thinkingParts,
               st.currentThinkingStart⟩ := by
          simp [stripStep, hcf, hthink, hclose]
        rw [hstep]
        refine ⟨⟨fun _ => ⟨hsub, ?_⟩, fun hfalse => absurd hfalse (by simp)⟩,
          Nat.le_refl _⟩
        show st.currentThinkingStart ≤ m.idx + m.len
        omega

theorem stripFold_inv (raw : List Char) (regions : List CodeRegion) :
    ∀ (ms : List TagMatch) (p : Nat) (st : StripState),
    Chained p ms → st.lastIndex ≤ p → StripInv raw st →
    StripInv raw (ms.foldl (stripStep raw regions) st) := by
  intro ms
  induction ms with
  | nil => intro p st _ _ hinv; exact hinv
  | cons m ms ih =>
    intro p st hch hle hinv
    cases hch with
    | cons _ _ _ hpm hlen htail =>
      rcases stripStep_inv raw regions st m (hle.trans hpm) hinv with ⟨hinv2, hle2⟩
      exact ih (m.idx + m.len) (stripStep raw regions st m) htail hle2 hinv2

theorem stripRun_inv (raw : List Char) : StripInv raw (stripRun raw) := by
  unfold stripRun
  exact stripFold_inv raw (findCodeRegions raw) (scanTags raw) 0 ⟨[], 0, false, [], 0⟩
    (scanTags_chained raw) (Nat.le_refl 0)
    ⟨fun hfalse => absurd hfalse (by simp), fun _ => List.nil_sublist _⟩

/-- Claim C7 — when the scan ends with an open thinking tag that is never
closed (the code's unclosed-tag condition, reachable only past the quick-tag
gate), stripInlineThinkingTags captures the whole text following that tag as
thinking output (the trimmed trailing text is a suffix of the returned
thinking, so it is not silently dropped), and that trailing portion
contributes nothing to the visible content: the returned content is drawn
entirely from the characters before the unclosed tag ended. -/
theorem unclosed_tag_captured (raw : List Char)
    (hne : raw ≠ []) (hq : quickTagTest raw = true)
    (hin : (stripRun raw).inThinking = true) :
    (stripInlineThinkingTags raw).content.Sublist
        (raw.take (stripRun raw).currentThinkingStart)
    ∧ (trim (raw.drop (stripRun raw).currentThinkingStart) ≠ [] →
        ∃ pre, trim (raw.drop (stripRun raw).currentThinkingStart) ≠ []
          ∧ (stripInlineThinkingTags raw).thinking
            = pre ++ trim (raw.drop (stripRun raw).currentThinkingStart)) := by
  have hgate : (raw = [] || !quickTagTest raw) = false := by
    simp [hne, hq]
  have hstrip : stripInlineThinkingTags raw
      = ⟨trim (joinNl ((stripRun raw).thinkingParts
            ++ [trim (raw.drop (stripRun raw).currentThinkingStart)])),
         trim (stripRun raw).result⟩ := by
    unfold stripInlineThinkingTags
    rw [hgate]
    simp only [Bool.false_eq_true, if_false, hin, if_true]
  constructor
  · rw [hstrip]
    rcases (stripRun_inv raw).1 hin with ⟨hsub, _⟩
    exact (trim_sublist _).trans hsub
  · intro hnz
    rw [hstrip]
    obtain ⟨A, hA⟩ := joinNl_concat_ex (stripRun raw).thinkingParts
      (trim (raw.drop (stripRun raw).currentThinkingStart))
    have hhead := trim_head_not_space (raw.drop (stripRun raw).currentThinkingStart)
    have hlast := trim_revhead_not_space (raw.drop (stripRun raw).currentThinkingStart)
    rcases hhead with h | hhead
    · exact absurd h hnz
    rcases hlast with h | hlast
    · exact absurd h hnz
    obtain ⟨pre, hpre⟩ := trim_keeps_suffix A
      (trim (raw.drop (stripRun raw).currentThinkingStart)) hhead hlast
    refine ⟨pre, hnz, ?_⟩
    show trim (joinNl ((stripRun raw).thinkingParts
        ++ [trim (raw.drop (stripRun raw).currentThinkingStart)])) = _
    rw [hA, hpre]

/-- Witness for C7: a concrete raw text with an unclosed thinking tag; the
trailing text `b c` is captured as thinking and the content `a` is drawn
from before the tag. -/
theorem unclosed_tag_captured_witness :
    (stripInlineThinkingTags (strL "a<thinking>b c")).content.Sublist
        ((strL "a<thinking>b c").take
          (stripRun (strL "a<thinking>b c")).currentThinkingStart)
    ∧ (∃ pre, trim ((strL "a<thinking>b c").drop
          (stripRun (strL "a<thinking>b c")).currentThinkingStart) ≠ []
        ∧ (stripInlineThinkingTags (strL "a<thinking>b c")).thinking
          = pre ++ trim ((strL "a<thinking>b c").drop
              (stripRun (strL "a<thinking>b c")).currentThinkingStart)) :=
  ⟨(unclosed_tag_captured (strL "a<thinking>b c") (by decide) (by decide) (by decide)).1,
   (unclosed_tag_captured (strL "a<thinking>b c") (by decide) (by decide) (by decide)).2
     (by decide)⟩

end WaffleSpec
